import Mathlib

/-!
# Bare Bones interpreter: executor, variable store and peephole optimizer

A shallow embedding of `src/barebones.c` (with `src/barebones.h` and the
helpers of `src/util.c` it calls) and the properties proved about it.

Modelling conventions.

* `var_t *` is a natural number: the variables live in an arena `Store`, a list
  of `var_t` records in allocation order, and a pointer is the position of its
  record.  The C linked list hanging off `var_head` is the arena read backwards
  (`find_var` pushes every new record on the front of that list).
* `uintmax_t` is `Nat` with an explicit reduction modulo `2 ^ 64` at every
  arithmetic operation of the source; a store is well formed (`Store.wf`) when
  every value is at most `UINTMAX_MAX`.
* `stmt_t` is a tagged union: `barebones.h` documents `dest` as used by the
  copy statement only and `stmt_list` by the while statement only, so each
  constructor carries exactly the fields that are read for its `type`.  A
  `next` chain is a `List stmt_t`, `NULL` being `[]`.
* `exit` is an `Outcome`: the process status together with the diagnostic and
  the store at the moment of the call.  Dereferencing a pointer that is not in
  the arena, or `NULL`, is `Outcome.undefined` (resp. `none` in the optimizer).
* The executor is not total (a Bare Bones program may loop forever), so it takes
  a `fuel` argument: every execution of a `while` statement may test its
  condition at most `fuel` times.  `Outcome.timeout` says the fuel ran out and
  is never a result of the program.
* The global `stmt_line` is written first thing by `execute_stmt` and read only
  by `error`, which `execute_stmt` reaches only through `check_var_init` before
  any nested call; it is therefore passed to `check_var_init` as an argument.
-/

namespace Barebones

/-- The constant `UINTMAX_MAX` of `<stdint.h>` for a 64-bit `uintmax_t`. -/
def UINTMAX_MAX : Nat := 2 ^ 64 - 1

/-- The record `struct var_t` (the `next` field is the position in the arena). -/
structure var_t where
  name : String
  init : Bool
  val : Nat
deriving DecidableEq

/-- The variable arena, oldest variable first. -/
abbrev Store := List var_t

/-- Every stored value fits a `uintmax_t`. -/
def Store.wf (σ : Store) : Prop := ∀ x ∈ σ, x.val ≤ UINTMAX_MAX

instance (σ : Store) : Decidable (Store.wf σ) := by
  unfold Store.wf; infer_instance

/-- The struct `stmt_t` with its `stmt_type_t` tag, one constructor per tag. -/
inductive stmt_t where
  | Clear (line : Int) (var : Nat)
  | Incr (line : Int) (var : Nat)
  | Decr (line : Int) (var : Nat)
  | While (line : Int) (var : Nat) (stmt_list : List stmt_t)
  | Copy (line : Int) (var : Nat) (dest : Nat)
  | AddClear (line : Int) (var : Nat) (dest : Nat)

/-- The diagnostics the executor can die with. -/
inductive Message where
  /-- From `error ("unitialized variable %s", var->name)`, printed after
  `error on line <stmt_line>: `. -/
  | uninitialized (stmt_line : Int) (name : String)
  /-- From `fatal (2, "overflow")`. -/
  | overflow
deriving DecidableEq

/-- What a run of the executor ends in. -/
inductive Outcome where
  /-- The call returned; the store is as given. -/
  | ok (σ : Store)
  /-- The process exited with `status` from `error` or `fatal`. -/
  | exit (status : Nat) (msg : Message) (σ : Store)
  /-- A variable pointer outside the arena was dereferenced. -/
  | undefined
  /-- The fuel ran out. -/
  | timeout
deriving DecidableEq

/-- The enumeration `stmt_type_t`. -/
inductive stmt_type_t where
  | CLEAR_STMT
  | INCR_STMT
  | DECR_STMT
  | WHILE_STMT
  | COPY_STMT
  | ADD_CLEAR_STMT
deriving DecidableEq

/-- The field `stmt->type`. -/
def stmt_t.type : stmt_t → stmt_type_t
  | stmt_t.Clear _ _ => stmt_type_t.CLEAR_STMT
  | stmt_t.Incr _ _ => stmt_type_t.INCR_STMT
  | stmt_t.Decr _ _ => stmt_type_t.DECR_STMT
  | stmt_t.While _ _ _ => stmt_type_t.WHILE_STMT
  | stmt_t.Copy _ _ _ => stmt_type_t.COPY_STMT
  | stmt_t.AddClear _ _ _ => stmt_type_t.ADD_CLEAR_STMT

/-- The field `stmt->var`. -/
def stmt_t.var : stmt_t → Nat
  | stmt_t.Clear _ v => v
  | stmt_t.Incr _ v => v
  | stmt_t.Decr _ v => v
  | stmt_t.While _ v _ => v
  | stmt_t.Copy _ v _ => v
  | stmt_t.AddClear _ v _ => v

/-- The field `stmt->line`. -/
def stmt_t.line : stmt_t → Int
  | stmt_t.Clear l _ => l
  | stmt_t.Incr l _ => l
  | stmt_t.Decr l _ => l
  | stmt_t.While l _ _ => l
  | stmt_t.Copy l _ _ => l
  | stmt_t.AddClear l _ _ => l

/-- The function `check_var_init`: `none` when it returns, the diagnostic of `error`
otherwise. -/
def check_var_init (stmt_line : Int) (var : var_t) : Option Message :=
  if !var.init then some (Message.uninitialized stmt_line var.name) else none

/-- The loop `while (stmt->var->val) execute_stmt_list (stmt->stmt_list);` of
the `WHILE_STMT` case of `execute_stmt`, `body` being the call of
`execute_stmt_list` on the loop body.  The condition is tested at most `fuel`
times. -/
def while_loop (body : Store → Outcome) (var : Nat) : Nat → Store → Outcome
  | 0, _ => Outcome.timeout
  | fuel + 1, σ =>
    match σ[var]? with
    | none => Outcome.undefined
    | some x =>
      if x.val ≠ 0 then
        match body σ with
        | Outcome.ok σ1 => while_loop body var fuel σ1
        | o => o
      else Outcome.ok σ

mutual
/-- The function `execute_stmt`. -/
def execute_stmt (fuel : Nat) : stmt_t → Store → Outcome
  | stmt_t.Clear _ var, σ =>
    match σ[var]? with
    | none => Outcome.undefined
    | some x => Outcome.ok (σ.set var { x with val := 0, init := true })
  | stmt_t.Incr line var, σ =>
    match σ[var]? with
    | none => Outcome.undefined
    | some x =>
      match check_var_init line x with
      | some msg => Outcome.exit 2 msg σ
      | none =>
        if x.val = UINTMAX_MAX then Outcome.exit 2 Message.overflow σ
        else Outcome.ok (σ.set var { x with val := (x.val + 1) % 2 ^ 64 })
  | stmt_t.Decr line var, σ =>
    match σ[var]? with
    | none => Outcome.undefined
    | some x =>
      match check_var_init line x with
      | some msg => Outcome.exit 2 msg σ
      | none =>
        if x.val ≠ 0 then Outcome.ok (σ.set var { x with val := x.val - 1 })
        else Outcome.ok σ
  | stmt_t.While line var stmt_list, σ =>
    match σ[var]? with
    | none => Outcome.undefined
    | some x =>
      match check_var_init line x with
      | some msg => Outcome.exit 2 msg σ
      | none => while_loop (execute_stmt_list fuel stmt_list) var fuel σ
  | stmt_t.Copy line var dest, σ =>
    match σ[var]? with
    | none => Outcome.undefined
    | some x =>
      match check_var_init line x with
      | some msg => Outcome.exit 2 msg σ
      | none =>
        match σ[dest]? with
        | none => Outcome.undefined
        | some d => Outcome.ok (σ.set dest { d with val := x.val, init := true })
  | stmt_t.AddClear line var dest, σ =>
    match σ[var]? with
    | none => Outcome.undefined
    | some x =>
      match check_var_init line x with
      | some msg => Outcome.exit 2 msg σ
      | none =>
        match σ[dest]? with
        | none => Outcome.undefined
        | some d =>
          match check_var_init line d with
          | some msg => Outcome.exit 2 msg σ
          | none =>
            let σ1 := σ.set dest { d with val := (d.val + x.val) % 2 ^ 64 }
            match σ1[var]? with
            | none => Outcome.undefined
            | some x1 => Outcome.ok (σ1.set var { x1 with val := 0 })
termination_by structural stmt => stmt
/-- The function `execute_stmt_list`. -/
def execute_stmt_list (fuel : Nat) : List stmt_t → Store → Outcome
  | [], σ => Outcome.ok σ
  | stmt :: next, σ =>
    match execute_stmt fuel stmt σ with
    | Outcome.ok σ1 => execute_stmt_list fuel next σ1
    | o => o
termination_by structural list => list
end

/-- Lines 255 to 275 of `optimize_while_stmt`: the value of `match`, with `src`
and `dest` when it is true, for a loop body `first_stmt` that is not `NULL`. -/
def find_match (loop_var : Nat) : List stmt_t → Option (Nat × Nat)
  | [first_stmt, second_stmt] =>
    if first_stmt.type = stmt_type_t.INCR_STMT ∧ first_stmt.var ≠ loop_var ∧
        second_stmt.type = stmt_type_t.DECR_STMT ∧ second_stmt.var = loop_var then
      some (second_stmt.var, first_stmt.var)
    else if second_stmt.type = stmt_type_t.INCR_STMT ∧ second_stmt.var ≠ loop_var ∧
        first_stmt.type = stmt_type_t.DECR_STMT ∧ first_stmt.var = loop_var then
      some (first_stmt.var, second_stmt.var)
    else none
  | _ => none

mutual
/-- The function `optimize_while_stmt`; `none` is the crash of
`second_stmt = first_stmt->next` when `stmt->stmt_list` is `NULL`.  It is
called on `WHILE_STMT` nodes only; a node of another type has no `stmt_list`. -/
def optimize_while_stmt : stmt_t → Option stmt_t
  | stmt_t.While line loop_var stmt_list =>
    match stmt_list with
    | [] => none
    | _ :: _ =>
      match find_match loop_var stmt_list with
      | some (src, dest) => some (stmt_t.AddClear line src dest)
      | none =>
        match optimize_stmt_list stmt_list with
        | none => none
        | some stmt_list1 => some (stmt_t.While line loop_var stmt_list1)
  | _ => none
termination_by structural stmt => stmt
/-- The function `optimize_stmt_list`. -/
def optimize_stmt_list : List stmt_t → Option (List stmt_t)
  | [] => some []
  | stmt :: next =>
    match (if stmt.type = stmt_type_t.WHILE_STMT then optimize_while_stmt stmt
      else some stmt) with
    | none => none
    | some stmt1 =>
      match optimize_stmt_list next with
      | none => none
      | some next1 => some (stmt1 :: next1)
termination_by structural list => list
end

/-! ### Shapes of statement trees (used to state the properties) -/

mutual
/-- No `while` statement of the tree has an empty body. -/
def stmt_t.loops_nonempty : stmt_t → Bool
  | stmt_t.While _ _ stmt_list =>
    match stmt_list with
    | [] => false
    | _ :: _ => loops_nonempty stmt_list
  | _ => true
termination_by structural stmt => stmt
/-- No `while` statement at any depth of the sequence has an empty body. -/
def loops_nonempty : List stmt_t → Bool
  | [] => true
  | stmt :: next => stmt.loops_nonempty && loops_nonempty next
termination_by structural list => list
end

mutual
/-- The tree holds no `ADD_CLEAR_STMT` node: it is a tree the parser can build. -/
def stmt_t.no_add_clear : stmt_t → Bool
  | stmt_t.While _ _ stmt_list => no_add_clear stmt_list
  | stmt_t.AddClear _ _ _ => false
  | _ => true
termination_by structural stmt => stmt
/-- The sequence holds no `ADD_CLEAR_STMT` node at any depth. -/
def no_add_clear : List stmt_t → Bool
  | [] => true
  | stmt :: next => stmt.no_add_clear && no_add_clear next
termination_by structural list => list
end

mutual
/-- Every `ADD_CLEAR_STMT` node of the tree has `var` different from `dest`. -/
def stmt_t.add_clear_distinct : stmt_t → Bool
  | stmt_t.While _ _ stmt_list => add_clear_distinct stmt_list
  | stmt_t.AddClear _ var dest => decide (var ≠ dest)
  | _ => true
termination_by structural stmt => stmt
/-- Every `ADD_CLEAR_STMT` node at any depth of the sequence has `var` different
from `dest`. -/
def add_clear_distinct : List stmt_t → Bool
  | [] => true
  | stmt :: next => stmt.add_clear_distinct && add_clear_distinct next
termination_by structural list => list
end

/-- The test `strcasecmp (a, b) == 0` (letters of the C locale). -/
def strcasecmp_eq (a b : String) : Bool :=
  a.data.map Char.toLower == b.data.map Char.toLower

/-- The linked list that starts at `var_head`: every variable with its
pointer, the most recently created first. -/
def var_head (σ : Store) : List (Nat × var_t) := σ.enum.reverse

/-- The function `find_var` under the policy `init_to_zero`: the pointer it
returns and the store afterwards.  A new record comes zeroed from `alloc`
(`calloc`), so its `val` is 0 under either policy. -/
def find_var (init_to_zero : Bool) (name : String) (σ : Store) : Nat × Store :=
  match (var_head σ).find? (fun p => strcasecmp_eq name p.2.name) with
  | some p => (p.1, σ)
  | none => (σ.length, σ ++ [{ name := name, init := init_to_zero, val := 0 }])

/-- The function `set_var`; `none` when `var` is not a variable of the store. -/
def set_var (var : Nat) (val : Nat) (σ : Store) : Option Store :=
  match σ[var]? with
  | none => none
  | some x => some (σ.set var { x with val := val % 2 ^ 64, init := true })

/-- The diagnostics `define_var` can die with, through `fatal`. -/
inductive Fatal where
  /-- From `a_to_intmax`: the text is not one whole integer. -/
  | cant_interpret
  /-- From `define_var`: negative values are not permitted. -/
  | negative
deriving DecidableEq

/-- What a call of `define_var` ends in. -/
inductive Defined where
  /-- The call returned; the store is as given. -/
  | ok (σ : Store)
  /-- The process exited with status `ret` from `fatal (ret, ...)`; the store is
  as it was at that moment. -/
  | fatal (ret : Nat) (msg : Fatal) (σ : Store)
  /-- The argument holds no `=`: `strchr` returned `NULL`. -/
  | undefined
deriving DecidableEq

/-- The function `a_to_intmax` of `util.c`.  The library call
`sscanf (s, "%ji%n", &val, &cc)` is a parameter: `some (val, cc)` when it
converts one integer, `cc` being the number of characters it read, `none` when
it converts nothing.  The result is `none` when `fatal (2, ...)` is called. -/
def a_to_intmax (sscanf : String → Option (Int × Nat)) (s : String) : Option Int :=
  match sscanf s with
  | none => none
  | some (val, cc) => if cc ≠ s.length then none else some val

/-- The function `define_var` for the argument `s`, under the policy
`init_to_zero`. -/
def define_var (sscanf : String → Option (Int × Nat)) (init_to_zero : Bool) (s : String)
    (σ : Store) : Defined :=
  match s.data.span (fun c => c ≠ '=') with
  | (name, _ :: p) =>
    match a_to_intmax sscanf (String.mk p) with
    | none => Defined.fatal 2 Fatal.cant_interpret σ
    | some val =>
      if val < 0 then Defined.fatal 2 Fatal.negative σ
      else
        match set_var (find_var init_to_zero (String.mk name) σ).1 val.toNat
          (find_var init_to_zero (String.mk name) σ).2 with
        | none => Defined.undefined
        | some σ1 => Defined.ok σ1
  | (_, []) => Defined.undefined

/-! ### Notions used to state the properties -/

/-- The store an outcome carries: the one returned, or the one at the exit. -/
def Outcome.store : Outcome → Option Store
  | Outcome.ok σ => some σ
  | Outcome.exit _ _ σ => some σ
  | Outcome.undefined => none
  | Outcome.timeout => none

/-- The store `σ1` has the variables of `σ`, one for one and in the same order,
each with its name, and every variable initialized in `σ` is initialized in
`σ1`. -/
def store_le (σ σ1 : Store) : Prop :=
  List.Forall₂ (fun x x1 => x1.name = x.name ∧ (x.init = true → x1.init = true)) σ σ1

/-- Every variable of the store is initialized. -/
def all_init (σ : Store) : Prop := ∀ x ∈ σ, x.init = true

instance (σ : Store) : Decidable (all_init σ) := by
  unfold all_init; infer_instance

/-- No two variables of the store have names that are equal ignoring case. -/
def no_dup_names (σ : Store) : Prop :=
  ∀ (i j : Nat) (x y : var_t), σ[i]? = some x → σ[j]? = some y →
    strcasecmp_eq x.name y.name = true → i = j

/-- The store after looking up `names` one after the other with `find_var`. -/
def lookups (init_to_zero : Bool) : List String → Store → Store
  | [], σ => σ
  | name :: names, σ => lookups init_to_zero names (find_var init_to_zero name σ).2

/-! ## Store lemmas -/

theorem lt_length_of_getElem? {σ : Store} {i : Nat} {x : var_t} (h : σ[i]? = some x) :
    i < σ.length := by
  rcases List.getElem?_eq_some.mp h with ⟨hi, _⟩
  exact hi

theorem set_self_of_getElem? {σ : Store} {i : Nat} {x : var_t} (h : σ[i]? = some x) :
    σ.set i x = σ := by
  apply List.ext_getElem?
  intro j
  rw [List.getElem?_set]
  by_cases hij : i = j
  · subst hij
    simp [lt_length_of_getElem? h, h]
  · simp [hij]

theorem wf_val_le {σ : Store} (hwf : σ.wf) {i : Nat} {x : var_t} (h : σ[i]? = some x) :
    x.val ≤ UINTMAX_MAX :=
  hwf x (List.mem_iff_getElem?.mpr ⟨i, h⟩)

theorem wf_set {σ : Store} (hwf : σ.wf) (i : Nat) (x : var_t) (hx : x.val ≤ UINTMAX_MAX) :
    Store.wf (σ.set i x) := by
  intro y hy
  rcases List.mem_or_eq_of_mem_set hy with h | h
  · exact hwf y h
  · rw [h]; exact hx

theorem set_transfer_collapse (σ : Store) (X Y : Nat) (hXY : X ≠ Y) (a b c d : var_t) :
    (((σ.set Y a).set X b).set Y c).set X d = (σ.set Y c).set X d := by
  rw [List.set_comm b c _ hXY, List.set_set, List.set_set]

/-! ## Single statements -/

theorem check_var_init_of_init (line : Int) {x : var_t} (h : x.init = true) :
    check_var_init line x = none := by
  simp [check_var_init, h]

theorem check_var_init_of_not_init (line : Int) {x : var_t} (h : x.init = false) :
    check_var_init line x = some (Message.uninitialized line x.name) := by
  simp [check_var_init, h]

theorem execute_stmt_list_nil (fuel : Nat) (σ : Store) :
    execute_stmt_list fuel [] σ = Outcome.ok σ := by
  simp [execute_stmt_list]

theorem execute_stmt_list_cons_ok (fuel : Nat) (stmt : stmt_t) (next : List stmt_t)
    (σ σ1 : Store) (h : execute_stmt fuel stmt σ = Outcome.ok σ1) :
    execute_stmt_list fuel (stmt :: next) σ = execute_stmt_list fuel next σ1 := by
  simp [execute_stmt_list, h]

theorem execute_Incr_ok (fuel : Nat) (line : Int) (var : Nat) (σ : Store) (x : var_t)
    (h : σ[var]? = some x) (hi : x.init = true) (hv : x.val < UINTMAX_MAX) :
    execute_stmt fuel (stmt_t.Incr line var) σ =
      Outcome.ok (σ.set var { x with val := x.val + 1 }) := by
  have hmod : (x.val + 1) % 2 ^ 64 = x.val + 1 := by
    apply Nat.mod_eq_of_lt
    unfold UINTMAX_MAX at hv
    omega
  have hne : x.val ≠ UINTMAX_MAX := by omega
  simp only [execute_stmt, h, check_var_init_of_init _ hi, hne, hmod, if_false]

theorem execute_Decr_ok (fuel : Nat) (line : Int) (var : Nat) (σ : Store) (x : var_t)
    (h : σ[var]? = some x) (hi : x.init = true) :
    execute_stmt fuel (stmt_t.Decr line var) σ =
      Outcome.ok (σ.set var { x with val := x.val - 1 }) := by
  by_cases h0 : x.val = 0
  · have hx : ({ x with val := x.val - 1 } : var_t) = x := by
      cases x; simp_all
    rw [hx, set_self_of_getElem? h]
    simp [execute_stmt, h, check_var_init_of_init _ hi, h0]
  · simp [execute_stmt, h, check_var_init_of_init _ hi, h0]

/-! ## More fuel never changes a result -/

theorem while_loop_mono (body1 body2 : Store → Outcome) (var : Nat)
    (hb : ∀ σ, body1 σ ≠ Outcome.timeout → body2 σ = body1 σ) :
    ∀ (n m : Nat) (σ : Store), n ≤ m → while_loop body1 var n σ ≠ Outcome.timeout →
      while_loop body2 var m σ = while_loop body1 var n σ := by
  intro n
  induction n with
  | zero =>
    intro m σ _ h
    exact absurd rfl h
  | succ n ih =>
    intro m σ hnm h
    obtain ⟨k, rfl⟩ : ∃ k, m = k + 1 := ⟨m - 1, by omega⟩
    simp only [while_loop] at h ⊢
    cases hx : σ[var]? with
    | none => rfl
    | some x =>
      simp only [hx] at h ⊢
      by_cases h0 : x.val ≠ 0
      · simp only [if_pos h0] at h ⊢
        cases hb1 : body1 σ with
        | ok σ1 =>
          simp only [hb1] at h
          simp only [hb σ (by rw [hb1]; simp), hb1]
          exact ih k σ1 (by omega) h
        | exit status msg σ1 => simp only [hb σ (by rw [hb1]; simp), hb1]
        | undefined => simp only [hb σ (by rw [hb1]; simp), hb1]
        | timeout =>
          simp only [hb1] at h
          exact absurd rfl h
      · simp only [if_neg h0]

mutual
theorem execute_stmt_mono : ∀ (stmt : stmt_t) (n m : Nat) (σ : Store), n ≤ m →
    execute_stmt n stmt σ ≠ Outcome.timeout → execute_stmt m stmt σ = execute_stmt n stmt σ
  | stmt_t.Clear _ _, n, m, σ, _, _ => by simp only [execute_stmt]
  | stmt_t.Incr _ _, n, m, σ, _, _ => by simp only [execute_stmt]
  | stmt_t.Decr _ _, n, m, σ, _, _ => by simp only [execute_stmt]
  | stmt_t.Copy _ _ _, n, m, σ, _, _ => by simp only [execute_stmt]
  | stmt_t.AddClear _ _ _, n, m, σ, _, _ => by simp only [execute_stmt]
  | stmt_t.While line var stmt_list, n, m, σ, hnm, h => by
    have ihl := execute_stmt_list_mono stmt_list n m
    simp only [execute_stmt] at h ⊢
    cases hx : σ[var]? with
    | none => rfl
    | some x =>
      simp only [hx] at h ⊢
      cases hc : check_var_init line x with
      | some msg => rfl
      | none =>
        simp only [hc] at h ⊢
        exact while_loop_mono _ _ var (fun σ1 h1 => ihl σ1 hnm h1) n m σ hnm h
theorem execute_stmt_list_mono : ∀ (list : List stmt_t) (n m : Nat) (σ : Store), n ≤ m →
    execute_stmt_list n list σ ≠ Outcome.timeout →
    execute_stmt_list m list σ = execute_stmt_list n list σ
  | [], n, m, σ, _, _ => by simp only [execute_stmt_list]
  | stmt :: next, n, m, σ, hnm, h => by
    have ihs := execute_stmt_mono stmt n m σ hnm
    have ihn := execute_stmt_list_mono next n m
    simp only [execute_stmt_list] at h ⊢
    cases hs : execute_stmt n stmt σ with
    | ok σ1 =>
      rw [hs] at h ihs
      rw [ihs (by simp)]
      exact ihn σ1 hnm h
    | exit status msg σ1 =>
      rw [hs] at ihs
      rw [ihs (by simp)]
    | undefined =>
      rw [hs] at ihs
      rw [ihs (by simp)]
    | timeout =>
      rw [hs] at h
      exact absurd rfl h
end

/-- A result obtained with some fuel is the result with any larger fuel. -/
theorem execute_stmt_list_ok_mono {list : List stmt_t} {n : Nat} {σ σ1 : Store}
    (h : execute_stmt_list n list σ = Outcome.ok σ1) (m : Nat) (hnm : n ≤ m) :
    execute_stmt_list m list σ = Outcome.ok σ1 := by
  rw [execute_stmt_list_mono list n m σ hnm (by rw [h]; simp), h]

/-! ## The transfer loop -/

/-- One turn of the body `incr Y; decr X`. -/
theorem transfer_body_incr_decr (fuel : Nat) (σ : Store) (X Y : Nat) (l1 l2 : Int)
    (x y : var_t) (hXY : X ≠ Y) (hX : σ[X]? = some x) (hY : σ[Y]? = some y)
    (hxi : x.init = true) (hyi : y.init = true) (hx0 : x.val ≠ 0)
    (hsum : x.val + y.val ≤ UINTMAX_MAX) :
    execute_stmt_list fuel [stmt_t.Incr l1 Y, stmt_t.Decr l2 X] σ =
      Outcome.ok ((σ.set Y { y with val := y.val + 1 }).set X { x with val := x.val - 1 }) := by
  have hX1 : (σ.set Y { y with val := y.val + 1 })[X]? = some x := by
    rw [List.getElem?_set_ne (Ne.symm hXY)]; exact hX
  rw [execute_stmt_list_cons_ok _ _ _ _ _ (execute_Incr_ok fuel l1 Y σ y hY hyi (by omega)),
    execute_stmt_list_cons_ok _ _ _ _ _ (execute_Decr_ok fuel l2 X _ x hX1 hxi),
    execute_stmt_list_nil]

/-- One turn of the body `decr X; incr Y`. -/
theorem transfer_body_decr_incr (fuel : Nat) (σ : Store) (X Y : Nat) (l1 l2 : Int)
    (x y : var_t) (hXY : X ≠ Y) (hX : σ[X]? = some x) (hY : σ[Y]? = some y)
    (hxi : x.init = true) (hyi : y.init = true) (hx0 : x.val ≠ 0)
    (hsum : x.val + y.val ≤ UINTMAX_MAX) :
    execute_stmt_list fuel [stmt_t.Decr l1 X, stmt_t.Incr l2 Y] σ =
      Outcome.ok ((σ.set Y { y with val := y.val + 1 }).set X { x with val := x.val - 1 }) := by
  have hY1 : (σ.set X { x with val := x.val - 1 })[Y]? = some y := by
    rw [List.getElem?_set_ne hXY]; exact hY
  rw [execute_stmt_list_cons_ok _ _ _ _ _ (execute_Decr_ok fuel l1 X σ x hX hxi),
    execute_stmt_list_cons_ok _ _ _ _ _ (execute_Incr_ok fuel l2 Y _ y hY1 hyi (by omega)),
    execute_stmt_list_nil, List.set_comm _ _ _ hXY]

/-- A loop on `X` whose body moves one unit from `X` to `Y` each turn ends with
everything moved, whatever the body is made of. -/
theorem while_loop_transfer (body : Store → Outcome) (X Y : Nat) (hXY : X ≠ Y)
    (hbody : ∀ (σ : Store) (x y : var_t), σ[X]? = some x → σ[Y]? = some y →
      x.init = true → y.init = true → x.val ≠ 0 → x.val + y.val ≤ UINTMAX_MAX →
      body σ = Outcome.ok
        ((σ.set Y { y with val := y.val + 1 }).set X { x with val := x.val - 1 })) :
    ∀ (n : Nat) (σ : Store) (x y : var_t), σ[X]? = some x → σ[Y]? = some y →
      x.init = true → y.init = true → x.val = n → x.val + y.val ≤ UINTMAX_MAX →
      ∀ fuel, n < fuel →
        while_loop body X fuel σ = Outcome.ok
          ((σ.set Y { y with val := y.val + x.val }).set X { x with val := 0 }) := by
  intro n
  induction n with
  | zero =>
    intro σ x y hX hY _ _ hn _ fuel hfuel
    obtain ⟨k, rfl⟩ : ∃ k, fuel = k + 1 := ⟨fuel - 1, by omega⟩
    have hx : ({ x with val := 0 } : var_t) = x := by
      cases x; simp_all
    have hy : ({ y with val := y.val + x.val } : var_t) = y := by
      cases y; simp_all
    rw [hy, hx, set_self_of_getElem? hY, set_self_of_getElem? hX]
    simp [while_loop, hX, hn]
  | succ n ih =>
    intro σ x y hX hY hxi hyi hn hsum fuel hfuel
    obtain ⟨k, rfl⟩ : ∃ k, fuel = k + 1 := ⟨fuel - 1, by omega⟩
    have hx0 : x.val ≠ 0 := by omega
    have hXlt := lt_length_of_getElem? hX
    have hYlt := lt_length_of_getElem? hY
    have hX2 : ((σ.set Y { y with val := y.val + 1 }).set X { x with val := x.val - 1 })[X]? =
        some { x with val := x.val - 1 } := by
      rw [List.getElem?_set_self]; simpa using hXlt
    have hY2 : ((σ.set Y { y with val := y.val + 1 }).set X { x with val := x.val - 1 })[Y]? =
        some { y with val := y.val + 1 } := by
      rw [List.getElem?_set_ne hXY, List.getElem?_set_self hYlt]
    have hrec := ih _ _ _ hX2 hY2 hxi hyi (by simp; omega) (by simp; omega) k (by omega)
    simp only [while_loop, hX, hx0, ne_eq, not_false_eq_true, if_true,
      hbody σ x y hX hY hxi hyi hx0 hsum, hrec]
    have hsum1 : y.val + 1 + (x.val - 1) = y.val + x.val := by omega
    simp only [hsum1]
    rw [set_transfer_collapse σ X Y hXY]

/-- The matched loop with the increment first is rewritten into one `AddClear`. -/
theorem optimize_transfer_incr_decr (lw l1 l2 : Int) (a b : Nat) (hab : a ≠ b) :
    optimize_stmt_list [stmt_t.While lw b [stmt_t.Incr l1 a, stmt_t.Decr l2 b]] =
      some [stmt_t.AddClear lw b a] := by
  simp [optimize_stmt_list, optimize_while_stmt, find_match, stmt_t.type, stmt_t.var, hab]

/-- The matched loop with the decrement first is rewritten into one `AddClear`. -/
theorem optimize_transfer_decr_incr (lw l1 l2 : Int) (a b : Nat) (hab : a ≠ b) :
    optimize_stmt_list [stmt_t.While lw b [stmt_t.Decr l1 b, stmt_t.Incr l2 a]] =
      some [stmt_t.AddClear lw b a] := by
  simp [optimize_stmt_list, optimize_while_stmt, find_match, stmt_t.type, stmt_t.var, hab]

/-- What `AddClear` does to two distinct initialized variables. -/
theorem execute_AddClear_ok (fuel : Nat) (line : Int) (src dest : Nat) (σ : Store)
    (x y : var_t) (hne : src ≠ dest) (hX : σ[src]? = some x) (hY : σ[dest]? = some y)
    (hxi : x.init = true) (hyi : y.init = true) :
    execute_stmt fuel (stmt_t.AddClear line src dest) σ =
      Outcome.ok ((σ.set dest { y with val := (y.val + x.val) % 2 ^ 64 }).set src
        { x with val := 0 }) := by
  have hX1 : (σ.set dest { y with val := (y.val + x.val) % 2 ^ 64 })[src]? = some x := by
    rw [List.getElem?_set_ne (Ne.symm hne)]; exact hX
  simp only [execute_stmt, hX, hY, check_var_init_of_init _ hxi, check_var_init_of_init _ hyi,
    hX1]

/-- The transfer loop, unoptimized, in either order of its body. -/
theorem execute_transfer_loop (fuel : Nat) (σ : Store) (X Y : Nat) (lw : Int)
    (body : List stmt_t) (x y : var_t) (hXY : X ≠ Y) (hX : σ[X]? = some x)
    (hY : σ[Y]? = some y) (hxi : x.init = true) (hyi : y.init = true)
    (hsum : y.val + x.val ≤ UINTMAX_MAX) (hfuel : x.val < fuel)
    (hbody : ∀ (σ : Store) (x y : var_t), σ[X]? = some x → σ[Y]? = some y →
      x.init = true → y.init = true → x.val ≠ 0 → x.val + y.val ≤ UINTMAX_MAX →
      execute_stmt_list fuel body σ = Outcome.ok
        ((σ.set Y { y with val := y.val + 1 }).set X { x with val := x.val - 1 })) :
    execute_stmt_list fuel [stmt_t.While lw X body] σ =
      Outcome.ok ((σ.set Y { y with val := y.val + x.val }).set X { x with val := 0 }) := by
  have hloop := while_loop_transfer (execute_stmt_list fuel body) X Y hXY hbody x.val σ x y
    hX hY hxi hyi rfl (by omega) fuel hfuel
  have hstmt : execute_stmt fuel (stmt_t.While lw X body) σ =
      Outcome.ok ((σ.set Y { y with val := y.val + x.val }).set X { x with val := 0 }) := by
    simp only [execute_stmt, hX, check_var_init_of_init _ hxi]
    exact hloop
  rw [execute_stmt_list_cons_ok _ _ _ _ _ hstmt, execute_stmt_list_nil]

/-- C3: for distinct initialized variables `X = n` and `Y = m` with `m + n` at
most `UINTMAX_MAX`, the program `while X [ incr Y; decr X ]` run unoptimized
returns (with any fuel above `n`) the store in which `X` is 0, `Y` is `m + n`
and every other variable is as before; the optimizer turns the program into the
single statement `AddClear (src = X, dest = Y)`, and running that returns the
same store. -/
theorem transfer_loop_result (σ : Store) (X Y : Nat) (lw l1 l2 : Int) (x y : var_t)
    (hXY : X ≠ Y) (hX : σ[X]? = some x) (hY : σ[Y]? = some y)
    (hxi : x.init = true) (hyi : y.init = true)
    (hsum : y.val + x.val ≤ UINTMAX_MAX) :
    (∀ fuel, x.val < fuel →
      execute_stmt_list fuel [stmt_t.While lw X [stmt_t.Incr l1 Y, stmt_t.Decr l2 X]] σ =
        Outcome.ok ((σ.set Y { y with val := y.val + x.val }).set X { x with val := 0 })) ∧
    optimize_stmt_list [stmt_t.While lw X [stmt_t.Incr l1 Y, stmt_t.Decr l2 X]] =
      some [stmt_t.AddClear lw X Y] ∧
    (∀ fuel, execute_stmt_list fuel [stmt_t.AddClear lw X Y] σ =
      Outcome.ok ((σ.set Y { y with val := y.val + x.val }).set X { x with val := 0 })) ∧
    ((σ.set Y { y with val := y.val + x.val }).set X { x with val := 0 })[X]? =
      some { x with val := 0 } ∧
    ((σ.set Y { y with val := y.val + x.val }).set X { x with val := 0 })[Y]? =
      some { y with val := y.val + x.val } ∧
    ∀ z, z ≠ X → z ≠ Y →
      ((σ.set Y { y with val := y.val + x.val }).set X { x with val := 0 })[z]? = σ[z]? := by
  have hXlt := lt_length_of_getElem? hX
  have hYlt := lt_length_of_getElem? hY
  refine ⟨?_, optimize_transfer_incr_decr lw l1 l2 Y X (Ne.symm hXY), ?_, ?_, ?_, ?_⟩
  · intro fuel hfuel
    exact execute_transfer_loop fuel σ X Y lw _ x y hXY hX hY hxi hyi hsum hfuel
      (fun σ x y => transfer_body_incr_decr fuel σ X Y l1 l2 x y hXY)
  · intro fuel
    have hmod : (y.val + x.val) % 2 ^ 64 = y.val + x.val := by
      apply Nat.mod_eq_of_lt
      unfold UINTMAX_MAX at hsum
      omega
    rw [execute_stmt_list_cons_ok _ _ _ _ _
      (execute_AddClear_ok fuel lw X Y σ x y hXY hX hY hxi hyi), execute_stmt_list_nil, hmod]
  · rw [List.getElem?_set_self]; simpa using hXlt
  · rw [List.getElem?_set_ne hXY, List.getElem?_set_self hYlt]
  · intro z hzX hzY
    rw [List.getElem?_set_ne (Ne.symm hzX), List.getElem?_set_ne (Ne.symm hzY)]

/-- C3 at the scenario of the specification: `X = 5` and a fresh `Y = 0` give
`X = 0` and `Y = 5`, unoptimized and optimized. -/
theorem transfer_loop_result_witness :
    execute_stmt_list 6 [stmt_t.While 1 0 [stmt_t.Incr 2 1, stmt_t.Decr 3 0]]
        [⟨"X", true, 5⟩, ⟨"Y", true, 0⟩] = Outcome.ok [⟨"X", true, 0⟩, ⟨"Y", true, 5⟩] ∧
    optimize_stmt_list [stmt_t.While 1 0 [stmt_t.Incr 2 1, stmt_t.Decr 3 0]] =
      some [stmt_t.AddClear 1 0 1] ∧
    execute_stmt_list 6 [stmt_t.AddClear 1 0 1] [⟨"X", true, 5⟩, ⟨"Y", true, 0⟩] =
      Outcome.ok [⟨"X", true, 0⟩, ⟨"Y", true, 5⟩] :=
  have h := transfer_loop_result [⟨"X", true, 5⟩, ⟨"Y", true, 0⟩] 0 1 1 2 3
    ⟨"X", true, 5⟩ ⟨"Y", true, 0⟩ (by decide) rfl rfl rfl rfl (by decide)
  ⟨h.1 6 (by decide), h.2.1, h.2.2.1 6⟩

/-- C1 (amended): for distinct initialized variables `a` and `b` whose values
sum to at most `UINTMAX_MAX`, and for both orders of the body, the optimizer
returns a tree for the one-statement program `While (b, body)`, and running the
program and running that tree from the same store both return, with the same
final store (any fuel above the value of `b`). -/
theorem transfer_loop_optimizer_equiv (σ : Store) (a b : Nat) (lw l1 l2 : Int)
    (x y : var_t) (hab : a ≠ b) (hb : σ[b]? = some x) (ha : σ[a]? = some y)
    (hxi : x.init = true) (hyi : y.init = true) (hsum : y.val + x.val ≤ UINTMAX_MAX)
    (body : List stmt_t)
    (hbody : body = [stmt_t.Incr l1 a, stmt_t.Decr l2 b] ∨
      body = [stmt_t.Decr l1 b, stmt_t.Incr l2 a]) :
    ∃ (prog1 : List stmt_t) (σ1 : Store),
      optimize_stmt_list [stmt_t.While lw b body] = some prog1 ∧
      ∀ fuel, x.val < fuel →
        execute_stmt_list fuel [stmt_t.While lw b body] σ = Outcome.ok σ1 ∧
        execute_stmt_list fuel prog1 σ = Outcome.ok σ1 := by
  have hmod : (y.val + x.val) % 2 ^ 64 = y.val + x.val := by
    apply Nat.mod_eq_of_lt
    unfold UINTMAX_MAX at hsum
    omega
  have hopt : ∀ fuel, execute_stmt_list fuel [stmt_t.AddClear lw b a] σ =
      Outcome.ok ((σ.set a { y with val := y.val + x.val }).set b { x with val := 0 }) := by
    intro fuel
    rw [execute_stmt_list_cons_ok _ _ _ _ _
      (execute_AddClear_ok fuel lw b a σ x y (Ne.symm hab) hb ha hxi hyi),
      execute_stmt_list_nil, hmod]
  refine ⟨[stmt_t.AddClear lw b a],
    (σ.set a { y with val := y.val + x.val }).set b { x with val := 0 }, ?_, ?_⟩
  · rcases hbody with h | h
    · rw [h]; exact optimize_transfer_incr_decr lw l1 l2 a b hab
    · rw [h]; exact optimize_transfer_decr_incr lw l1 l2 a b hab
  · intro fuel hfuel
    refine ⟨?_, hopt fuel⟩
    rcases hbody with h | h
    · rw [h]
      exact execute_transfer_loop fuel σ b a lw _ x y (Ne.symm hab) hb ha hxi hyi hsum hfuel
        (fun σ x y => transfer_body_incr_decr fuel σ b a l1 l2 x y (Ne.symm hab))
    · rw [h]
      exact execute_transfer_loop fuel σ b a lw _ x y (Ne.symm hab) hb ha hxi hyi hsum hfuel
        (fun σ x y => transfer_body_decr_incr fuel σ b a l1 l2 x y (Ne.symm hab))

/-- C1 (amended) at `a = 7`, `b = 2`, decrement first. -/
theorem transfer_loop_optimizer_equiv_witness :
    ∃ (prog1 : List stmt_t) (σ1 : Store),
      optimize_stmt_list [stmt_t.While 1 1 [stmt_t.Decr 2 1, stmt_t.Incr 3 0]] = some prog1 ∧
      ∀ fuel, 2 < fuel →
        execute_stmt_list fuel [stmt_t.While 1 1 [stmt_t.Decr 2 1, stmt_t.Incr 3 0]]
          [⟨"a", true, 7⟩, ⟨"b", true, 2⟩] = Outcome.ok σ1 ∧
        execute_stmt_list fuel prog1 [⟨"a", true, 7⟩, ⟨"b", true, 2⟩] = Outcome.ok σ1 :=
  transfer_loop_optimizer_equiv [⟨"a", true, 7⟩, ⟨"b", true, 2⟩] 0 1 1 2 3
    ⟨"b", true, 2⟩ ⟨"a", true, 7⟩ (by decide) rfl rfl rfl rfl (by decide) _ (Or.inr rfl)

/-- C1 as stated fails at `a = UINTMAX_MAX`, `b = 1`: both variables are
initialized and hold representable values, yet the unoptimized loop never
returns a store: it exits with status 2 on the overflow of `incr a`, in
either order of the body. -/
theorem transfer_loop_overflow_counterexample :
    Store.wf [⟨"a", true, UINTMAX_MAX⟩, ⟨"b", true, 1⟩] ∧
    (¬ ∃ (fuel : Nat) (σ1 : Store),
      execute_stmt_list fuel [stmt_t.While 1 1 [stmt_t.Incr 2 0, stmt_t.Decr 3 1]]
        [⟨"a", true, UINTMAX_MAX⟩, ⟨"b", true, 1⟩] = Outcome.ok σ1) ∧
    execute_stmt_list 1 [stmt_t.While 1 1 [stmt_t.Incr 2 0, stmt_t.Decr 3 1]]
        [⟨"a", true, UINTMAX_MAX⟩, ⟨"b", true, 1⟩] =
      Outcome.exit 2 Message.overflow [⟨"a", true, UINTMAX_MAX⟩, ⟨"b", true, 1⟩] ∧
    execute_stmt_list 1 [stmt_t.While 1 1 [stmt_t.Decr 2 1, stmt_t.Incr 3 0]]
        [⟨"a", true, UINTMAX_MAX⟩, ⟨"b", true, 1⟩] =
      Outcome.exit 2 Message.overflow [⟨"a", true, UINTMAX_MAX⟩, ⟨"b", true, 0⟩] := by
  refine ⟨by decide, ?_, by decide, by decide⟩
  rintro ⟨fuel, σ1, h⟩
  cases fuel with
  | zero => simp [execute_stmt_list, execute_stmt, while_loop, check_var_init] at h
  | succ k => simp [execute_stmt_list, execute_stmt, while_loop, check_var_init] at h

/-- C2 fails on the code.  Under the lazy policy the program
`clear B; while B [ incr A; decr B ]`, run from the store that `find_var`
builds for it, returns with `A` still uninitialized, and the optimized program
exits with status 2 on the uninitialized `A`.  And from `A = UINTMAX_MAX - 1`,
`B = 3` the program `while B [ incr A; decr B ]` exits with status 2 on
overflow, and the optimized program returns with `A = 1`. -/
theorem optimizer_changes_outcome :
    find_var false "A" (find_var false "B" []).2 = (1, [⟨"B", false, 0⟩, ⟨"A", false, 0⟩]) ∧
    execute_stmt_list 1 [stmt_t.Clear 1 0, stmt_t.While 2 0 [stmt_t.Incr 3 1, stmt_t.Decr 4 0]]
        [⟨"B", false, 0⟩, ⟨"A", false, 0⟩] =
      Outcome.ok [⟨"B", true, 0⟩, ⟨"A", false, 0⟩] ∧
    optimize_stmt_list [stmt_t.Clear 1 0, stmt_t.While 2 0 [stmt_t.Incr 3 1, stmt_t.Decr 4 0]] =
      some [stmt_t.Clear 1 0, stmt_t.AddClear 2 0 1] ∧
    execute_stmt_list 1 [stmt_t.Clear 1 0, stmt_t.AddClear 2 0 1]
        [⟨"B", false, 0⟩, ⟨"A", false, 0⟩] =
      Outcome.exit 2 (Message.uninitialized 2 "A") [⟨"B", true, 0⟩, ⟨"A", false, 0⟩] ∧
    execute_stmt_list 3 [stmt_t.While 1 0 [stmt_t.Incr 2 1, stmt_t.Decr 3 0]]
        [⟨"B", true, 3⟩, ⟨"A", true, UINTMAX_MAX - 1⟩] =
      Outcome.exit 2 Message.overflow [⟨"B", true, 2⟩, ⟨"A", true, UINTMAX_MAX⟩] ∧
    optimize_stmt_list [stmt_t.While 1 0 [stmt_t.Incr 2 1, stmt_t.Decr 3 0]] =
      some [stmt_t.AddClear 1 0 1] ∧
    execute_stmt_list 3 [stmt_t.AddClear 1 0 1]
        [⟨"B", true, 3⟩, ⟨"A", true, UINTMAX_MAX - 1⟩] =
      Outcome.ok [⟨"B", true, 0⟩, ⟨"A", true, 1⟩] := by
  refine ⟨by decide, by decide, rfl, by decide, by decide, rfl, by decide⟩

/-! ## Incr, Decr and Clear -/

/-- C7: on a variable `v` of a well-formed store, `Incr (v)` exits (with status
2) exactly when `v` is uninitialized or holds `UINTMAX_MAX`: with the
uninitialized-variable diagnostic in the first case and the overflow diagnostic
in the second, the store being untouched.  Otherwise it returns, the value of
`v` is the old value plus one, which is still at most `UINTMAX_MAX`, and the
name and the initialized flag of `v` are as before. -/
theorem incr_fails_iff (fuel : Nat) (line : Int) (v : Nat) (σ : Store) (x : var_t)
    (hwf : σ.wf) (hv : σ[v]? = some x) :
    ((∃ status msg σ1, execute_stmt fuel (stmt_t.Incr line v) σ = Outcome.exit status msg σ1) ↔
      (x.init = false ∨ x.val = UINTMAX_MAX)) ∧
    (x.init = false → execute_stmt fuel (stmt_t.Incr line v) σ =
      Outcome.exit 2 (Message.uninitialized line x.name) σ) ∧
    (x.init = true → x.val = UINTMAX_MAX → execute_stmt fuel (stmt_t.Incr line v) σ =
      Outcome.exit 2 Message.overflow σ) ∧
    (x.init = true → x.val ≠ UINTMAX_MAX →
      execute_stmt fuel (stmt_t.Incr line v) σ =
        Outcome.ok (σ.set v { name := x.name, init := true, val := x.val + 1 }) ∧
      (σ.set v { name := x.name, init := true, val := x.val + 1 })[v]? =
        some { name := x.name, init := true, val := x.val + 1 } ∧
      x.val + 1 ≤ UINTMAX_MAX) := by
  have hle := wf_val_le hwf hv
  have hlt := lt_length_of_getElem? hv
  have h1 : x.init = false → execute_stmt fuel (stmt_t.Incr line v) σ =
      Outcome.exit 2 (Message.uninitialized line x.name) σ := by
    intro hi
    simp only [execute_stmt, hv, check_var_init_of_not_init _ hi]
  have h2 : x.init = true → x.val = UINTMAX_MAX → execute_stmt fuel (stmt_t.Incr line v) σ =
      Outcome.exit 2 Message.overflow σ := by
    intro hi hmax
    simp only [execute_stmt, hv, check_var_init_of_init _ hi, hmax, if_true]
  have h3 : x.init = true → x.val ≠ UINTMAX_MAX →
      execute_stmt fuel (stmt_t.Incr line v) σ =
        Outcome.ok (σ.set v { name := x.name, init := true, val := x.val + 1 }) := by
    intro hi hmax
    rw [execute_Incr_ok fuel line v σ x hv hi (by omega), hi]
  refine ⟨⟨?_, ?_⟩, h1, h2, ?_⟩
  · rintro ⟨status, msg, σ1, h⟩
    by_contra hcon
    push_neg at hcon
    rw [h3 (by simpa using hcon.1) hcon.2] at h
    simp at h
  · rintro (hi | hmax)
    · exact ⟨2, _, σ, h1 hi⟩
    · cases hi : x.init with
      | false => exact ⟨2, _, σ, h1 hi⟩
      | true => exact ⟨2, _, σ, h2 hi hmax⟩
  · intro hi hmax
    refine ⟨h3 hi hmax, List.getElem?_set_self hlt, by omega⟩

/-- C7 at `X = 41`: `incr X` gives 42. -/
theorem incr_fails_iff_witness :
    execute_stmt 0 (stmt_t.Incr 1 0) [⟨"X", true, 41⟩] = Outcome.ok [⟨"X", true, 42⟩] :=
  ((incr_fails_iff 0 1 0 [⟨"X", true, 41⟩] ⟨"X", true, 41⟩ (by decide) rfl).2.2.2 rfl
    (by decide)).1

/-- C8 as stated fails on a variable that holds 0 and is uninitialized, which is
what `find_var` creates under the lazy policy: `decr X` exits with status 2. -/
theorem decr_zero_uninitialized_counterexample :
    find_var false "X" [] = (0, [⟨"X", false, 0⟩]) ∧
    execute_stmt 0 (stmt_t.Decr 1 0) [⟨"X", false, 0⟩] =
      Outcome.exit 2 (Message.uninitialized 1 "X") [⟨"X", false, 0⟩] := by
  refine ⟨by decide, by decide⟩

/-- C8 (amended): for every store and every initialized variable `v` in it
whose value is 0, `Decr (v)` returns and the store is unchanged; when `v` is
uninitialized, `Decr (v)` exits with the uninitialized-variable diagnostic,
the store unchanged as well. -/
theorem decr_zero (fuel : Nat) (line : Int) (v : Nat) (σ : Store) (x : var_t)
    (hv : σ[v]? = some x) (h0 : x.val = 0) :
    (x.init = true → execute_stmt fuel (stmt_t.Decr line v) σ = Outcome.ok σ) ∧
    (x.init = false → execute_stmt fuel (stmt_t.Decr line v) σ =
      Outcome.exit 2 (Message.uninitialized line x.name) σ) := by
  constructor
  · intro hi
    simp [execute_stmt, hv, check_var_init_of_init _ hi, h0]
  · intro hi
    simp only [execute_stmt, hv, check_var_init_of_not_init _ hi]

/-- C8 (amended) at an initialized `X = 0`. -/
theorem decr_zero_witness :
    execute_stmt 0 (stmt_t.Decr 1 0) [⟨"X", true, 0⟩] = Outcome.ok [⟨"X", true, 0⟩] :=
  (decr_zero 0 1 0 [⟨"X", true, 0⟩] ⟨"X", true, 0⟩ rfl rfl).1 rfl

/-- C9: for every store and every variable `v` in it, whatever its value and
its initialized flag, `Clear (v)` returns, and in the store it returns `v` has
value 0 and is initialized (its name, and every other variable, as before). -/
theorem clear_sets_zero (fuel : Nat) (line : Int) (v : Nat) (σ : Store) (x : var_t)
    (hv : σ[v]? = some x) :
    execute_stmt fuel (stmt_t.Clear line v) σ =
      Outcome.ok (σ.set v { name := x.name, init := true, val := 0 }) ∧
    (σ.set v { name := x.name, init := true, val := 0 })[v]? =
      some { name := x.name, init := true, val := 0 } ∧
    ∀ z, z ≠ v → (σ.set v { name := x.name, init := true, val := 0 })[z]? = σ[z]? := by
  refine ⟨?_, List.getElem?_set_self (lt_length_of_getElem? hv), ?_⟩
  · simp only [execute_stmt, hv]
  · intro z hz
    rw [List.getElem?_set_ne (Ne.symm hz)]

/-- C9 on an uninitialized variable and on one that holds a value. -/
theorem clear_sets_zero_witness :
    execute_stmt 0 (stmt_t.Clear 1 1) [⟨"X", true, 9⟩, ⟨"Y", false, 0⟩] =
      Outcome.ok [⟨"X", true, 9⟩, ⟨"Y", true, 0⟩] ∧
    execute_stmt 0 (stmt_t.Clear 1 0) [⟨"X", true, 9⟩, ⟨"Y", false, 0⟩] =
      Outcome.ok [⟨"X", true, 0⟩, ⟨"Y", false, 0⟩] :=
  ⟨(clear_sets_zero 0 1 1 [⟨"X", true, 9⟩, ⟨"Y", false, 0⟩] ⟨"Y", false, 0⟩ rfl).1,
    (clear_sets_zero 0 1 0 [⟨"X", true, 9⟩, ⟨"Y", false, 0⟩] ⟨"X", true, 9⟩ rfl).1⟩

/-! ## Termination of a loop whose body decreases the control variable -/

/-- A loop that returns within `k` tests of its condition returns the same
store when allowed more tests. -/
theorem while_loop_ok_mono (body : Store → Outcome) (var : Nat) {k : Nat} {σ σ1 : Store}
    (h : while_loop body var k σ = Outcome.ok σ1) (m : Nat) (hkm : k ≤ m) :
    while_loop body var m σ = Outcome.ok σ1 := by
  rw [while_loop_mono body body var (fun _ _ => rfl) k m σ hkm (by rw [h]; simp), h]

/-- The loop of C10, by induction on a bound `n` of the control variable: it
returns within `n + 1` tests of its condition. -/
theorem while_loop_decreasing (v : Nat) (body : List stmt_t) (P : Store → Prop)
    (hbody : ∀ (σ1 : Store) (x1 : var_t), P σ1 → σ1[v]? = some x1 → x1.val ≠ 0 →
      ∃ (fuel : Nat) (σ2 : Store) (x2 : var_t),
        execute_stmt_list fuel body σ1 = Outcome.ok σ2 ∧ P σ2 ∧ σ2[v]? = some x2 ∧
          x2.val < x1.val) :
    ∀ (n : Nat) (σ : Store) (x : var_t), P σ → σ[v]? = some x → x.val ≤ n →
      ∃ (fuel0 : Nat) (σ1 : Store) (x1 : var_t),
        (∀ fuel, fuel0 ≤ fuel →
          while_loop (execute_stmt_list fuel body) v (n + 1) σ = Outcome.ok σ1) ∧
        P σ1 ∧ σ1[v]? = some x1 ∧ x1.val = 0 := by
  intro n
  induction n with
  | zero =>
    intro σ x hP hv hx
    refine ⟨0, σ, x, ?_, hP, hv, by omega⟩
    intro fuel _
    have h0 : x.val = 0 := by omega
    simp [while_loop, hv, h0]
  | succ n ih =>
    intro σ x hP hv hx
    by_cases h0 : x.val = 0
    · refine ⟨0, σ, x, ?_, hP, hv, h0⟩
      intro fuel _
      simp [while_loop, hv, h0]
    · obtain ⟨fb, σ2, x2, hb, hP2, hv2, hlt⟩ := hbody σ x hP hv h0
      obtain ⟨f2, σ1, x1, hloop, hP1, hv1, hx1⟩ := ih σ2 x2 hP2 hv2 (by omega)
      refine ⟨max fb f2, σ1, x1, ?_, hP1, hv1, hx1⟩
      intro fuel hfuel
      have hb1 := execute_stmt_list_ok_mono hb fuel (le_trans (le_max_left fb f2) hfuel)
      have hl1 := hloop fuel (le_trans (le_max_right fb f2) hfuel)
      rw [while_loop]
      simp only [hv, ne_eq, h0, not_false_eq_true, if_true, hb1]
      exact hl1

/-- C10: let `v` be an initialized variable and `P` a property of stores that
holds now.  If from every store that satisfies `P` and in which `v` is nonzero
the body returns (with some fuel), in a store that satisfies `P` again and in
which the value of `v` is strictly smaller, then `While (v, body)` returns
(with every fuel from some point on), the loop tests its condition at most
`value of v + 1` times, that is, runs the body at most `value of v` times, and
`v` is 0 in the store it returns.  (Take `P` always true for a body that
decreases `v` from every store.) -/
theorem while_terminates (line : Int) (v : Nat) (body : List stmt_t) (P : Store → Prop)
    (σ : Store) (x : var_t) (hv : σ[v]? = some x) (hinit : x.init = true) (hP : P σ)
    (hbody : ∀ (σ1 : Store) (x1 : var_t), P σ1 → σ1[v]? = some x1 → x1.val ≠ 0 →
      ∃ (fuel : Nat) (σ2 : Store) (x2 : var_t),
        execute_stmt_list fuel body σ1 = Outcome.ok σ2 ∧ P σ2 ∧ σ2[v]? = some x2 ∧
          x2.val < x1.val) :
    ∃ (fuel0 : Nat) (σ1 : Store) (x1 : var_t),
      (∀ fuel, fuel0 ≤ fuel →
        execute_stmt fuel (stmt_t.While line v body) σ = Outcome.ok σ1) ∧
      (∀ fuel, fuel0 ≤ fuel →
        while_loop (execute_stmt_list fuel body) v (x.val + 1) σ = Outcome.ok σ1) ∧
      P σ1 ∧ σ1[v]? = some x1 ∧ x1.val = 0 := by
  obtain ⟨f, σ1, x1, hloop, hP1, hv1, hx1⟩ :=
    while_loop_decreasing v body P hbody x.val σ x hP hv (le_refl _)
  refine ⟨max f (x.val + 1), σ1, x1, ?_, ?_, hP1, hv1, hx1⟩
  · intro fuel hfuel
    have hl := hloop fuel (le_trans (le_max_left _ _) hfuel)
    simp only [execute_stmt, hv, check_var_init_of_init _ hinit]
    exact while_loop_ok_mono _ v hl fuel (le_trans (le_max_right _ _) hfuel)
  · intro fuel hfuel
    exact hloop fuel (le_trans (le_max_left _ _) hfuel)

/-- C10 on `while X [ decr X ]` from `X = 2`, with the property that `X` is an
initialized variable of the store. -/
theorem while_terminates_witness :
    ∃ (fuel0 : Nat) (σ1 : Store) (x1 : var_t),
      (∀ fuel, fuel0 ≤ fuel →
        execute_stmt fuel (stmt_t.While 1 0 [stmt_t.Decr 2 0]) [⟨"X", true, 2⟩] =
          Outcome.ok σ1) ∧
      (∀ fuel, fuel0 ≤ fuel →
        while_loop (execute_stmt_list fuel [stmt_t.Decr 2 0]) 0 (2 + 1) [⟨"X", true, 2⟩] =
          Outcome.ok σ1) ∧
      (∃ y, σ1[0]? = some y ∧ y.init = true) ∧ σ1[0]? = some x1 ∧ x1.val = 0 :=
  while_terminates 1 0 [stmt_t.Decr 2 0] (fun s => ∃ y, s[0]? = some y ∧ y.init = true)
    [⟨"X", true, 2⟩] ⟨"X", true, 2⟩ rfl rfl ⟨_, rfl, rfl⟩
    (fun σ1 x1 hP hx1 _ => by
      obtain ⟨y, hy, hyi⟩ := hP
      have hxy : x1 = y := by
        rw [hx1] at hy
        exact Option.some.inj hy
      subst hxy
      have hlt := lt_length_of_getElem? hx1
      refine ⟨0, σ1.set 0 { x1 with val := x1.val - 1 }, { x1 with val := x1.val - 1 }, ?_,
        ⟨_, List.getElem?_set_self hlt, hyi⟩, List.getElem?_set_self hlt, ?_⟩
      · rw [execute_stmt_list_cons_ok _ _ _ _ _ (execute_Decr_ok 0 2 0 σ1 x1 hx1 hyi),
          execute_stmt_list_nil]
      · show x1.val - 1 < x1.val
        omega)

/-! ## The optimizer -/

theorem optimize_stmt_list_cons_some (stmt : stmt_t) (next l1 : List stmt_t) :
    optimize_stmt_list (stmt :: next) = some l1 ↔
      ∃ stmt1 next1, l1 = stmt1 :: next1 ∧
        (if stmt.type = stmt_type_t.WHILE_STMT then optimize_while_stmt stmt else some stmt) =
          some stmt1 ∧
        optimize_stmt_list next = some next1 := by
  rw [optimize_stmt_list]
  cases h1 : (if stmt.type = stmt_type_t.WHILE_STMT then optimize_while_stmt stmt
      else some stmt) with
  | none => simp
  | some stmt1 =>
    cases h2 : optimize_stmt_list next with
    | none => simp
    | some next1 =>
      simp only [Option.some.injEq]
      constructor
      · intro h
        exact ⟨stmt1, next1, h.symm, rfl, rfl⟩
      · rintro ⟨s, n, hl, hs, hn⟩
        rw [hl, hs, hn]

/-- The equation of `optimize_while_stmt` on a loop with a body. -/
theorem optimize_while_stmt_cons (line : Int) (loop_var : Nat) (first_stmt : stmt_t)
    (rest : List stmt_t) :
    optimize_while_stmt (stmt_t.While line loop_var (first_stmt :: rest)) =
      match find_match loop_var (first_stmt :: rest) with
      | some (src, dest) => some (stmt_t.AddClear line src dest)
      | none =>
        match optimize_stmt_list (first_stmt :: rest) with
        | none => none
        | some stmt_list1 => some (stmt_t.While line loop_var stmt_list1) := by
  rw [optimize_while_stmt]

/-- A match takes the loop variable as `src` and another variable as `dest`. -/
theorem find_match_some (loop_var : Nat) (body : List stmt_t) (src dest : Nat)
    (h : find_match loop_var body = some (src, dest)) :
    src = loop_var ∧ dest ≠ loop_var ∧
      ∃ l1 l2, body = [stmt_t.Incr l1 dest, stmt_t.Decr l2 loop_var] ∨
        body = [stmt_t.Decr l1 loop_var, stmt_t.Incr l2 dest] := by
  match body, h with
  | [first_stmt, second_stmt], h =>
    simp only [find_match] at h
    split at h
    · next hc =>
      obtain ⟨h1, h2, h3, h4⟩ := hc
      simp only [Option.some.injEq, Prod.mk.injEq] at h
      obtain ⟨hs, hd⟩ := h
      cases first_stmt <;> simp [stmt_t.type] at h1
      cases second_stmt <;> simp [stmt_t.type] at h3
      simp only [stmt_t.var] at h2 h4 hs hd
      subst hs hd h4
      exact ⟨rfl, h2, _, _, Or.inl rfl⟩
    · split at h
      · next hc =>
        obtain ⟨h1, h2, h3, h4⟩ := hc
        simp only [Option.some.injEq, Prod.mk.injEq] at h
        obtain ⟨hs, hd⟩ := h
        cases second_stmt <;> simp [stmt_t.type] at h1
        cases first_stmt <;> simp [stmt_t.type] at h3
        simp only [stmt_t.var] at h2 h4 hs hd
        subst hs hd h4
        exact ⟨rfl, h2, _, _, Or.inr rfl⟩
      · simp at h
  | [], h => simp [find_match] at h
  | [_], h => simp [find_match] at h
  | _ :: _ :: _ :: _, h => simp [find_match] at h

/-- What `optimize_while_stmt` returns when it returns. -/
theorem optimize_while_stmt_some (line : Int) (loop_var : Nat) (body : List stmt_t)
    (stmt1 : stmt_t)
    (h : optimize_while_stmt (stmt_t.While line loop_var body) = some stmt1) :
    body ≠ [] ∧
    ((∃ dest, find_match loop_var body = some (loop_var, dest) ∧
        stmt1 = stmt_t.AddClear line loop_var dest) ∨
      (find_match loop_var body = none ∧
        ∃ body1, optimize_stmt_list body = some body1 ∧
          stmt1 = stmt_t.While line loop_var body1)) := by
  cases body with
  | nil => simp [optimize_while_stmt] at h
  | cons first_stmt rest =>
    refine ⟨by simp, ?_⟩
    rw [optimize_while_stmt_cons] at h
    cases hm : find_match loop_var (first_stmt :: rest) with
    | some p =>
      obtain ⟨src, dest⟩ := p
      rw [hm] at h
      simp only [Option.some.injEq] at h
      obtain ⟨hsrc, _, _⟩ := find_match_some _ _ _ _ hm
      subst hsrc
      exact Or.inl ⟨dest, rfl, h.symm⟩
    | none =>
      rw [hm] at h
      cases ho : optimize_stmt_list (first_stmt :: rest) with
      | none => rw [ho] at h; simp at h
      | some body1 =>
        rw [ho] at h
        simp only [Option.some.injEq] at h
        exact Or.inr ⟨rfl, body1, rfl, h.symm⟩

/-- What the optimizer does to one statement of a sequence: a statement that is
not a `while` is kept, a `while` becomes an `AddClear` or a `while`, on the same
line. -/
theorem optimize_elem (stmt stmt1 : stmt_t)
    (h : (if stmt.type = stmt_type_t.WHILE_STMT then optimize_while_stmt stmt else some stmt) =
      some stmt1) :
    (stmt.type ≠ stmt_type_t.WHILE_STMT ∧ stmt1 = stmt) ∨
    (stmt.type = stmt_type_t.WHILE_STMT ∧ stmt1.line = stmt.line ∧ stmt1.var = stmt.var ∧
      (stmt1.type = stmt_type_t.WHILE_STMT ∨ stmt1.type = stmt_type_t.ADD_CLEAR_STMT)) := by
  by_cases ht : stmt.type = stmt_type_t.WHILE_STMT
  · rw [if_pos ht] at h
    right
    cases stmt with
    | While line loop_var body =>
      obtain ⟨_, ⟨dest, _, rfl⟩ | ⟨_, body1, _, rfl⟩⟩ := optimize_while_stmt_some _ _ _ _ h
      · simp [stmt_t.type, stmt_t.line, stmt_t.var]
      · simp [stmt_t.type, stmt_t.line, stmt_t.var]
    | Clear _ _ => simp [stmt_t.type] at ht
    | Incr _ _ => simp [stmt_t.type] at ht
    | Decr _ _ => simp [stmt_t.type] at ht
    | Copy _ _ _ => simp [stmt_t.type] at ht
    | AddClear _ _ _ => simp [stmt_t.type] at ht
  · rw [if_neg ht] at h
    left
    exact ⟨ht, (Option.some.inj h).symm⟩

/-- The optimizer keeps what `find_match` looks at: the type and the variable of
the `incr` and `decr` statements of a sequence, and its length. -/
theorem find_match_optimize (loop_var : Nat) (l l1 : List stmt_t)
    (h : optimize_stmt_list l = some l1) : find_match loop_var l1 = find_match loop_var l := by
  have key : ∀ s s1 : stmt_t,
      (if s.type = stmt_type_t.WHILE_STMT then optimize_while_stmt s else some s) = some s1 →
      (s1.type = stmt_type_t.INCR_STMT ↔ s.type = stmt_type_t.INCR_STMT) ∧
      (s1.type = stmt_type_t.DECR_STMT ↔ s.type = stmt_type_t.DECR_STMT) ∧ s1.var = s.var := by
    intro s s1 hs
    rcases optimize_elem s s1 hs with ⟨_, rfl⟩ | ⟨ht, _, hv, ht1 | ht1⟩
    · simp
    · simp [ht, ht1, hv]
    · simp [ht, ht1, hv]
  match l, h with
  | [], h =>
    simp only [optimize_stmt_list, Option.some.injEq] at h
    rw [← h]
  | [a], h =>
    obtain ⟨a1, n1, rfl, _, hn⟩ := (optimize_stmt_list_cons_some _ _ _).mp h
    simp only [optimize_stmt_list, Option.some.injEq] at hn
    subst hn
    simp [find_match]
  | [a, b], h =>
    obtain ⟨a1, n1, rfl, ha, hn⟩ := (optimize_stmt_list_cons_some _ _ _).mp h
    obtain ⟨b1, n2, rfl, hb, hn2⟩ := (optimize_stmt_list_cons_some _ _ _).mp hn
    simp only [optimize_stmt_list, Option.some.injEq] at hn2
    subst hn2
    obtain ⟨ha1, ha2, ha3⟩ := key a a1 ha
    obtain ⟨hb1, hb2, hb3⟩ := key b b1 hb
    simp only [find_match, ha1, ha2, ha3, hb1, hb2, hb3]
  | a :: b :: c :: rest, h =>
    obtain ⟨a1, n1, rfl, _, hn⟩ := (optimize_stmt_list_cons_some _ _ _).mp h
    obtain ⟨b1, n2, rfl, _, hn2⟩ := (optimize_stmt_list_cons_some _ _ _).mp hn
    obtain ⟨c1, n3, rfl, _, _⟩ := (optimize_stmt_list_cons_some _ _ _).mp hn2
    simp [find_match]

mutual
theorem optimize_while_stmt_idem : ∀ (stmt stmt1 : stmt_t),
    optimize_while_stmt stmt = some stmt1 →
    (if stmt1.type = stmt_type_t.WHILE_STMT then optimize_while_stmt stmt1 else some stmt1) =
      some stmt1
  | stmt_t.While line loop_var body, stmt1, h => by
    have ih := optimize_stmt_list_idem body
    obtain ⟨hne, ⟨dest, _, rfl⟩ | ⟨hm, body1, hb, rfl⟩⟩ := optimize_while_stmt_some _ _ _ _ h
    · simp [stmt_t.type]
    · have hm1 := find_match_optimize loop_var body body1 hb
      rw [hm] at hm1
      have hb1 := ih body1 hb
      simp only [stmt_t.type, if_true]
      cases body1 with
      | nil =>
        cases body with
        | nil => exact absurd rfl hne
        | cons a r =>
          obtain ⟨_, _, hl, _, _⟩ := (optimize_stmt_list_cons_some _ _ _).mp hb
          simp at hl
      | cons a1 r1 => rw [optimize_while_stmt_cons, hm1, hb1]
  | stmt_t.Clear _ _, _, h => by simp [optimize_while_stmt] at h
  | stmt_t.Incr _ _, _, h => by simp [optimize_while_stmt] at h
  | stmt_t.Decr _ _, _, h => by simp [optimize_while_stmt] at h
  | stmt_t.Copy _ _ _, _, h => by simp [optimize_while_stmt] at h
  | stmt_t.AddClear _ _ _, _, h => by simp [optimize_while_stmt] at h
theorem optimize_stmt_list_idem : ∀ (l l1 : List stmt_t),
    optimize_stmt_list l = some l1 → optimize_stmt_list l1 = some l1
  | [], l1, h => by
    simp only [optimize_stmt_list, Option.some.injEq] at h
    rw [← h, optimize_stmt_list]
  | stmt :: next, l1, h => by
    have ihs := optimize_while_stmt_idem stmt
    have ihn := optimize_stmt_list_idem next
    obtain ⟨stmt1, next1, rfl, hs, hn⟩ := (optimize_stmt_list_cons_some _ _ _).mp h
    refine (optimize_stmt_list_cons_some _ _ _).mpr ⟨stmt1, next1, rfl, ?_, ihn next1 hn⟩
    by_cases ht : stmt.type = stmt_type_t.WHILE_STMT
    · rw [if_pos ht] at hs
      exact ihs stmt1 hs
    · rw [if_neg ht] at hs
      have hs1 := Option.some.inj hs
      subst hs1
      rw [if_neg ht]
end

mutual
theorem optimize_while_stmt_total : ∀ (line : Int) (loop_var : Nat) (body : List stmt_t),
    (stmt_t.While line loop_var body).loops_nonempty = true →
    ∃ stmt1, optimize_while_stmt (stmt_t.While line loop_var body) = some stmt1
  | line, loop_var, [], h => by simp [stmt_t.loops_nonempty] at h
  | line, loop_var, first_stmt :: rest, h => by
    have ih := optimize_stmt_list_total (first_stmt :: rest)
    simp only [stmt_t.loops_nonempty] at h
    obtain ⟨body1, hb⟩ := ih h
    rw [optimize_while_stmt_cons, hb]
    cases find_match loop_var (first_stmt :: rest) with
    | none => exact ⟨_, rfl⟩
    | some p => exact ⟨_, rfl⟩
theorem optimize_stmt_list_total : ∀ (l : List stmt_t), loops_nonempty l = true →
    ∃ l1, optimize_stmt_list l = some l1
  | [], _ => ⟨[], by rw [optimize_stmt_list]⟩
  | stmt :: next, h => by
    simp only [loops_nonempty, Bool.and_eq_true] at h
    obtain ⟨next1, hn⟩ := optimize_stmt_list_total next h.2
    cases stmt with
    | While line loop_var body =>
      obtain ⟨stmt1, hs⟩ := optimize_while_stmt_total line loop_var body h.1
      exact ⟨stmt1 :: next1, (optimize_stmt_list_cons_some _ _ _).mpr
        ⟨stmt1, next1, rfl, by simp [stmt_t.type, hs], hn⟩⟩
    | Clear l v =>
      exact ⟨stmt_t.Clear l v :: next1, (optimize_stmt_list_cons_some _ _ _).mpr
        ⟨stmt_t.Clear l v, next1, rfl, by simp [stmt_t.type], hn⟩⟩
    | Incr l v =>
      exact ⟨stmt_t.Incr l v :: next1, (optimize_stmt_list_cons_some _ _ _).mpr
        ⟨stmt_t.Incr l v, next1, rfl, by simp [stmt_t.type], hn⟩⟩
    | Decr l v =>
      exact ⟨stmt_t.Decr l v :: next1, (optimize_stmt_list_cons_some _ _ _).mpr
        ⟨stmt_t.Decr l v, next1, rfl, by simp [stmt_t.type], hn⟩⟩
    | Copy l v d =>
      exact ⟨stmt_t.Copy l v d :: next1, (optimize_stmt_list_cons_some _ _ _).mpr
        ⟨stmt_t.Copy l v d, next1, rfl, by simp [stmt_t.type], hn⟩⟩
    | AddClear l v d =>
      exact ⟨stmt_t.AddClear l v d :: next1, (optimize_stmt_list_cons_some _ _ _).mpr
        ⟨stmt_t.AddClear l v d, next1, rfl, by simp [stmt_t.type], hn⟩⟩
end

mutual
theorem optimize_while_stmt_distinct : ∀ (stmt stmt1 : stmt_t),
    stmt.no_add_clear = true → optimize_while_stmt stmt = some stmt1 →
    stmt1.add_clear_distinct = true
  | stmt_t.While line loop_var body, stmt1, hp, h => by
    have ih := optimize_stmt_list_distinct body
    simp only [stmt_t.no_add_clear] at hp
    obtain ⟨_, ⟨dest, hm, rfl⟩ | ⟨_, body1, hb, rfl⟩⟩ := optimize_while_stmt_some _ _ _ _ h
    · obtain ⟨_, hd, _⟩ := find_match_some _ _ _ _ hm
      simp only [stmt_t.add_clear_distinct, decide_eq_true_eq]
      exact Ne.symm hd
    · simp only [stmt_t.add_clear_distinct]
      exact ih body1 hp hb
  | stmt_t.Clear _ _, _, _, h => by simp [optimize_while_stmt] at h
  | stmt_t.Incr _ _, _, _, h => by simp [optimize_while_stmt] at h
  | stmt_t.Decr _ _, _, _, h => by simp [optimize_while_stmt] at h
  | stmt_t.Copy _ _ _, _, _, h => by simp [optimize_while_stmt] at h
  | stmt_t.AddClear _ _ _, _, _, h => by simp [optimize_while_stmt] at h
theorem optimize_stmt_list_distinct : ∀ (l l1 : List stmt_t),
    no_add_clear l = true → optimize_stmt_list l = some l1 → add_clear_distinct l1 = true
  | [], l1, _, h => by
    simp only [optimize_stmt_list, Option.some.injEq] at h
    rw [← h, add_clear_distinct]
  | stmt :: next, l1, hp, h => by
    have ihs := optimize_while_stmt_distinct stmt
    have ihn := optimize_stmt_list_distinct next
    simp only [no_add_clear, Bool.and_eq_true] at hp
    obtain ⟨stmt1, next1, rfl, hs, hn⟩ := (optimize_stmt_list_cons_some _ _ _).mp h
    simp only [add_clear_distinct, Bool.and_eq_true]
    refine ⟨?_, ihn next1 hp.2 hn⟩
    by_cases ht : stmt.type = stmt_type_t.WHILE_STMT
    · rw [if_pos ht] at hs
      exact ihs stmt1 hp.1 hs
    · rw [if_neg ht] at hs
      have hs1 := Option.some.inj hs
      subst hs1
      cases stmt with
      | While _ _ _ => simp [stmt_t.type] at ht
      | AddClear _ _ _ => simp [stmt_t.no_add_clear] at hp
      | Clear _ _ => simp [stmt_t.add_clear_distinct]
      | Incr _ _ => simp [stmt_t.add_clear_distinct]
      | Decr _ _ => simp [stmt_t.add_clear_distinct]
      | Copy _ _ _ => simp [stmt_t.add_clear_distinct]
end

/-- A body that increments the loop variable does not match. -/
theorem find_match_incr_loop_var (loop_var : Nat) (body : List stmt_t) (l : Int)
    (h : stmt_t.Incr l loop_var ∈ body) : find_match loop_var body = none := by
  cases hm : find_match loop_var body with
  | none => rfl
  | some p =>
    obtain ⟨src, dest⟩ := p
    obtain ⟨_, hd, l1, l2, hb | hb⟩ := find_match_some _ _ _ _ hm
    · rw [hb] at h
      simp at h
      exact absurd h.2.symm hd
    · rw [hb] at h
      simp at h
      exact absurd h.2.symm hd

/-- The rewrite rule on a loop whose body is not empty: the loop becomes
`AddClear (src = b, dest = a)` exactly when its body is `Incr (a)` and
`Decr (b)` in either order with `a` different from `b`, and otherwise stays a
loop on `b` over the optimized body. -/
theorem optimize_rewrite_rule (line : Int) (b : Nat) (body : List stmt_t) (hne : body ≠ []) :
    (∀ a l1 l2, a ≠ b →
      (body = [stmt_t.Incr l1 a, stmt_t.Decr l2 b] ∨
        body = [stmt_t.Decr l1 b, stmt_t.Incr l2 a]) →
      optimize_while_stmt (stmt_t.While line b body) = some (stmt_t.AddClear line b a)) ∧
    (∀ line1 src dest,
      optimize_while_stmt (stmt_t.While line b body) = some (stmt_t.AddClear line1 src dest) →
      line1 = line ∧ src = b ∧ dest ≠ b ∧
        ∃ l1 l2, body = [stmt_t.Incr l1 dest, stmt_t.Decr l2 b] ∨
          body = [stmt_t.Decr l1 b, stmt_t.Incr l2 dest]) ∧
    ((¬ ∃ a l1 l2, a ≠ b ∧
        (body = [stmt_t.Incr l1 a, stmt_t.Decr l2 b] ∨
          body = [stmt_t.Decr l1 b, stmt_t.Incr l2 a])) →
      optimize_while_stmt (stmt_t.While line b body) =
        (optimize_stmt_list body).map (stmt_t.While line b)) := by
  obtain ⟨first_stmt, rest, rfl⟩ : ∃ f r, body = f :: r := by
    cases body with
    | nil => exact absurd rfl hne
    | cons f r => exact ⟨f, r, rfl⟩
  refine ⟨?_, ?_, ?_⟩
  · intro a l1 l2 hab hb
    rcases hb with hb | hb
    · rw [hb]
      simp [optimize_while_stmt, find_match, stmt_t.type, stmt_t.var, hab]
    · rw [hb]
      simp [optimize_while_stmt, find_match, stmt_t.type, stmt_t.var, hab]
  · intro line1 src dest h
    obtain ⟨_, ⟨d, hm, heq⟩ | ⟨_, body1, _, heq⟩⟩ := optimize_while_stmt_some _ _ _ _ h
    · simp only [stmt_t.AddClear.injEq] at heq
      obtain ⟨h1, h2, h3⟩ := heq
      subst h1 h2 h3
      obtain ⟨_, hd, hpat⟩ := find_match_some _ _ _ _ hm
      exact ⟨rfl, rfl, hd, hpat⟩
    · simp at heq
  · intro hno
    rw [optimize_while_stmt_cons]
    cases hm : find_match b (first_stmt :: rest) with
    | some p =>
      obtain ⟨src, dest⟩ := p
      obtain ⟨_, hd, l1, l2, hpat⟩ := find_match_some _ _ _ _ hm
      exact absurd ⟨dest, l1, l2, hd, hpat⟩ hno
    | none =>
      cases optimize_stmt_list (first_stmt :: rest) with
      | none => rfl
      | some body1 => rfl

/-- What `optimize_stmt_list` keeps: the statements of the result are those of
the sequence one for one and in order, each with its line number, a statement
that is not a `while` being unchanged and a `while` being replaced by what
`optimize_while_stmt` returns for it. -/
theorem optimize_stmt_list_shape : ∀ (l l1 : List stmt_t), optimize_stmt_list l = some l1 →
    List.Forall₂ (fun s s1 => s1.line = s.line ∧
      (s.type ≠ stmt_type_t.WHILE_STMT → s1 = s) ∧
      (s.type = stmt_type_t.WHILE_STMT → optimize_while_stmt s = some s1)) l l1
  | [], l1, h => by
    simp only [optimize_stmt_list, Option.some.injEq] at h
    rw [← h]
    exact List.Forall₂.nil
  | stmt :: next, l1, h => by
    obtain ⟨stmt1, next1, rfl, hs, hn⟩ := (optimize_stmt_list_cons_some _ _ _).mp h
    refine List.Forall₂.cons ?_ (optimize_stmt_list_shape next next1 hn)
    rcases optimize_elem stmt stmt1 hs with ⟨ht, rfl⟩ | ⟨ht, hl, _, _⟩
    · exact ⟨rfl, fun _ => rfl, fun h1 => absurd h1 ht⟩
    · rw [if_pos ht] at hs
      exact ⟨hl, fun h1 => absurd ht h1, fun _ => hs⟩

/-- C4 fails on the code at a loop whose body is empty: `optimize_while_stmt`
reads `first_stmt->next` before it tests `first_stmt`, so the loop is neither
rewritten nor kept, and no tree comes back for a program that holds one, at the
top or nested. -/
theorem rewrite_rule_fails_on_empty_body :
    optimize_while_stmt (stmt_t.While 1 0 []) = none ∧
    optimize_stmt_list [stmt_t.While 1 0 []] = none ∧
    optimize_stmt_list
      [stmt_t.Clear 1 0, stmt_t.While 2 0 [stmt_t.While 3 1 [], stmt_t.Decr 4 0]] = none := by
  refine ⟨rfl, rfl, rfl⟩

/-- C5: running the optimizer on the tree it returned returns that tree again
(and when the first run crashes there is no second run): the two-pass result
is the one-pass result.  The first run returns a tree whenever no loop of the
program has an empty body.  In particular an `AddClear` node is never
rewritten, a loop that the first pass kept is kept by the second, and a loop
whose body increments its own control variable is not rewritten. -/
theorem optimize_idempotent (t : List stmt_t) :
    (optimize_stmt_list t).bind optimize_stmt_list = optimize_stmt_list t ∧
    (loops_nonempty t = true →
      ∃ t1, optimize_stmt_list t = some t1 ∧ optimize_stmt_list t1 = some t1) ∧
    (∀ line src dest,
      optimize_stmt_list (stmt_t.AddClear line src dest :: t) =
        (optimize_stmt_list t).map (fun t1 => stmt_t.AddClear line src dest :: t1)) ∧
    (∀ line b body1, optimize_while_stmt (stmt_t.While line b t) =
        some (stmt_t.While line b body1) →
      optimize_while_stmt (stmt_t.While line b body1) = some (stmt_t.While line b body1)) ∧
    (∀ line b l, stmt_t.Incr l b ∈ t →
      ∀ t1, optimize_stmt_list t = some t1 →
        optimize_while_stmt (stmt_t.While line b t) = some (stmt_t.While line b t1)) := by
  refine ⟨?_, ?_, ?_, ?_, ?_⟩
  · cases h : optimize_stmt_list t with
    | none => rfl
    | some t1 => exact optimize_stmt_list_idem t t1 h
  · intro hne
    obtain ⟨t1, h⟩ := optimize_stmt_list_total t hne
    exact ⟨t1, h, optimize_stmt_list_idem t t1 h⟩
  · intro line src dest
    rw [optimize_stmt_list]
    simp only [stmt_t.type]
    cases optimize_stmt_list t with
    | none => rfl
    | some t1 => rfl
  · intro line b body1 h
    have h2 := optimize_while_stmt_idem _ _ h
    simpa [stmt_t.type] using h2
  · intro line b l hmem t1 ht
    have hm := find_match_incr_loop_var b t l hmem
    cases t with
    | nil => simp at hmem
    | cons f r => rw [optimize_while_stmt_cons, hm, ht]

/-- C6: for every tree without an `AddClear` node, every `AddClear` node of the
tree that `optimize_stmt_list` returns, at any depth, has `var` (the source)
different from `dest`; and the optimizer does return a tree when no loop of
the program has an empty body. -/
theorem add_clear_src_ne_dest (t : List stmt_t) (hp : no_add_clear t = true) :
    (∀ t1, optimize_stmt_list t = some t1 → add_clear_distinct t1 = true) ∧
    (loops_nonempty t = true →
      ∃ t1, optimize_stmt_list t = some t1 ∧ add_clear_distinct t1 = true) := by
  refine ⟨fun t1 h => optimize_stmt_list_distinct t t1 hp h, ?_⟩
  intro hne
  obtain ⟨t1, h⟩ := optimize_stmt_list_total t hne
  exact ⟨t1, h, optimize_stmt_list_distinct t t1 hp h⟩

/-- C6 on a program with a nested transfer loop and a loop that increments its
own control variable. -/
theorem add_clear_src_ne_dest_witness :
    optimize_stmt_list
        [stmt_t.While 1 0 [stmt_t.While 2 1 [stmt_t.Incr 3 2, stmt_t.Decr 4 1], stmt_t.Decr 5 0],
          stmt_t.While 6 0 [stmt_t.Incr 7 0, stmt_t.Decr 8 0]] =
      some [stmt_t.While 1 0 [stmt_t.AddClear 2 1 2, stmt_t.Decr 5 0],
        stmt_t.While 6 0 [stmt_t.Incr 7 0, stmt_t.Decr 8 0]] ∧
    add_clear_distinct [stmt_t.While 1 0 [stmt_t.AddClear 2 1 2, stmt_t.Decr 5 0],
      stmt_t.While 6 0 [stmt_t.Incr 7 0, stmt_t.Decr 8 0]] = true :=
  ⟨rfl, (add_clear_src_ne_dest
    [stmt_t.While 1 0 [stmt_t.While 2 1 [stmt_t.Incr 3 2, stmt_t.Decr 4 1], stmt_t.Decr 5 0],
      stmt_t.While 6 0 [stmt_t.Incr 7 0, stmt_t.Decr 8 0]] rfl).1 _ rfl⟩

/-! ## While, AddClear and Copy -/

/-- What `Copy` does when `src` is initialized. -/
theorem execute_Copy_ok (fuel : Nat) (line : Int) (src dest : Nat) (σ : Store) (x d : var_t)
    (hs : σ[src]? = some x) (hd : σ[dest]? = some d) (hi : x.init = true) :
    execute_stmt fuel (stmt_t.Copy line src dest) σ =
      Outcome.ok (σ.set dest { name := d.name, init := true, val := x.val }) := by
  simp only [execute_stmt, hs, hd, check_var_init_of_init _ hi]

/-- C13: for variables `src` and `dest` of the store, `Copy (src, dest)` exits
(with status 2 and the uninitialized-variable diagnostic, the store untouched)
exactly when `src` is uninitialized.  Otherwise it returns; in the store it
returns `dest` holds the value of `src` and is initialized, whatever it was
before, `src` is unchanged (also when it is `dest` itself), and no other
variable changes. -/
theorem copy_spec (fuel : Nat) (line : Int) (src dest : Nat) (σ : Store) (x d : var_t)
    (hs : σ[src]? = some x) (hd : σ[dest]? = some d) :
    ((∃ status msg σ1,
        execute_stmt fuel (stmt_t.Copy line src dest) σ = Outcome.exit status msg σ1) ↔
      x.init = false) ∧
    (x.init = false → execute_stmt fuel (stmt_t.Copy line src dest) σ =
      Outcome.exit 2 (Message.uninitialized line x.name) σ) ∧
    (x.init = true →
      execute_stmt fuel (stmt_t.Copy line src dest) σ =
        Outcome.ok (σ.set dest { name := d.name, init := true, val := x.val }) ∧
      (σ.set dest { name := d.name, init := true, val := x.val })[dest]? =
        some { name := d.name, init := true, val := x.val } ∧
      (σ.set dest { name := d.name, init := true, val := x.val })[src]? = some x ∧
      ∀ z, z ≠ dest →
        (σ.set dest { name := d.name, init := true, val := x.val })[z]? = σ[z]?) := by
  have hdlt := lt_length_of_getElem? hd
  have h1 : x.init = false → execute_stmt fuel (stmt_t.Copy line src dest) σ =
      Outcome.exit 2 (Message.uninitialized line x.name) σ := by
    intro hi
    simp only [execute_stmt, hs, check_var_init_of_not_init _ hi]
  refine ⟨⟨?_, fun hi => ⟨2, _, σ, h1 hi⟩⟩, h1, ?_⟩
  · rintro ⟨status, msg, σ1, h⟩
    cases hi : x.init with
    | false => rfl
    | true =>
      rw [execute_Copy_ok fuel line src dest σ x d hs hd hi] at h
      simp at h
  · intro hi
    refine ⟨execute_Copy_ok fuel line src dest σ x d hs hd hi, List.getElem?_set_self hdlt,
      ?_, ?_⟩
    · by_cases hne : src = dest
      · subst hne
        have hxd : x = d := by
          rw [hs] at hd
          exact Option.some.inj hd
        subst hxd
        rw [List.getElem?_set_self hdlt, ← hi]
      · rw [List.getElem?_set_ne (Ne.symm hne)]
        exact hs
    · intro z hz
      rw [List.getElem?_set_ne (Ne.symm hz)]

/-- C13 on an uninitialized destination and on a copy of a variable onto
itself. -/
theorem copy_spec_witness :
    execute_stmt 0 (stmt_t.Copy 1 0 1) [⟨"X", true, 7⟩, ⟨"Y", false, 0⟩] =
      Outcome.ok [⟨"X", true, 7⟩, ⟨"Y", true, 7⟩] ∧
    execute_stmt 0 (stmt_t.Copy 1 0 0) [⟨"X", true, 7⟩, ⟨"Y", false, 0⟩] =
      Outcome.ok [⟨"X", true, 7⟩, ⟨"Y", false, 0⟩] ∧
    execute_stmt 0 (stmt_t.Copy 1 1 0) [⟨"X", true, 7⟩, ⟨"Y", false, 0⟩] =
      Outcome.exit 2 (Message.uninitialized 1 "Y") [⟨"X", true, 7⟩, ⟨"Y", false, 0⟩] :=
  ⟨((copy_spec 0 1 0 1 [⟨"X", true, 7⟩, ⟨"Y", false, 0⟩] ⟨"X", true, 7⟩ ⟨"Y", false, 0⟩
      rfl rfl).2.2 rfl).1,
    ((copy_spec 0 1 0 0 [⟨"X", true, 7⟩, ⟨"Y", false, 0⟩] ⟨"X", true, 7⟩ ⟨"X", true, 7⟩
      rfl rfl).2.2 rfl).1,
    (copy_spec 0 1 1 0 [⟨"X", true, 7⟩, ⟨"Y", false, 0⟩] ⟨"Y", false, 0⟩ ⟨"X", true, 7⟩
      rfl rfl).2.1 rfl⟩

/-- C12 as stated fails at `src = 1`, `dest = UINTMAX_MAX`, both initialized:
`AddClear` returns and `dest` holds 0, not the sum of the two values. -/
theorem add_clear_wraps_counterexample :
    Store.wf [⟨"S", true, 1⟩, ⟨"D", true, UINTMAX_MAX⟩] ∧
    execute_stmt 0 (stmt_t.AddClear 1 0 1) [⟨"S", true, 1⟩, ⟨"D", true, UINTMAX_MAX⟩] =
      Outcome.ok [⟨"S", true, 0⟩, ⟨"D", true, 0⟩] ∧
    (0 : Nat) ≠ UINTMAX_MAX + 1 := by
  refine ⟨by decide, by decide, by decide⟩

/-- C12 (amended): for distinct variables `src` and `dest` of the store whose
values sum to at most `UINTMAX_MAX`, `AddClear (src, dest)` exits (with status
2 and the uninitialized-variable diagnostic of the first uninitialized one,
the store untouched) exactly when `src` or `dest` is uninitialized.  Otherwise
it returns; in the store it returns `dest` holds the sum of the two values,
`src` holds 0 and is still initialized, and no other variable changes. -/
theorem add_clear_spec (fuel : Nat) (line : Int) (src dest : Nat) (σ : Store) (x y : var_t)
    (hne : src ≠ dest) (hs : σ[src]? = some x) (hd : σ[dest]? = some y)
    (hsum : y.val + x.val ≤ UINTMAX_MAX) :
    ((∃ status msg σ1,
        execute_stmt fuel (stmt_t.AddClear line src dest) σ = Outcome.exit status msg σ1) ↔
      (x.init = false ∨ y.init = false)) ∧
    (x.init = false → execute_stmt fuel (stmt_t.AddClear line src dest) σ =
      Outcome.exit 2 (Message.uninitialized line x.name) σ) ∧
    (x.init = true → y.init = false →
      execute_stmt fuel (stmt_t.AddClear line src dest) σ =
        Outcome.exit 2 (Message.uninitialized line y.name) σ) ∧
    (x.init = true → y.init = true →
      execute_stmt fuel (stmt_t.AddClear line src dest) σ =
        Outcome.ok ((σ.set dest { name := y.name, init := true, val := y.val + x.val }).set src
          { name := x.name, init := true, val := 0 }) ∧
      ((σ.set dest { name := y.name, init := true, val := y.val + x.val }).set src
          { name := x.name, init := true, val := 0 })[dest]? =
        some { name := y.name, init := true, val := y.val + x.val } ∧
      ((σ.set dest { name := y.name, init := true, val := y.val + x.val }).set src
          { name := x.name, init := true, val := 0 })[src]? =
        some { name := x.name, init := true, val := 0 } ∧
      ∀ z, z ≠ src → z ≠ dest →
        ((σ.set dest { name := y.name, init := true, val := y.val + x.val }).set src
          { name := x.name, init := true, val := 0 })[z]? = σ[z]?) := by
  have hslt := lt_length_of_getElem? hs
  have hdlt := lt_length_of_getElem? hd
  have hmod : (y.val + x.val) % 2 ^ 64 = y.val + x.val := by
    apply Nat.mod_eq_of_lt
    unfold UINTMAX_MAX at hsum
    omega
  have h1 : x.init = false → execute_stmt fuel (stmt_t.AddClear line src dest) σ =
      Outcome.exit 2 (Message.uninitialized line x.name) σ := by
    intro hi
    simp only [execute_stmt, hs, check_var_init_of_not_init _ hi]
  have h2 : x.init = true → y.init = false →
      execute_stmt fuel (stmt_t.AddClear line src dest) σ =
        Outcome.exit 2 (Message.uninitialized line y.name) σ := by
    intro hi hj
    simp only [execute_stmt, hs, hd, check_var_init_of_init _ hi,
      check_var_init_of_not_init _ hj]
  have h3 : x.init = true → y.init = true →
      execute_stmt fuel (stmt_t.AddClear line src dest) σ =
        Outcome.ok ((σ.set dest { name := y.name, init := true, val := y.val + x.val }).set src
          { name := x.name, init := true, val := 0 }) := by
    intro hi hj
    rw [execute_AddClear_ok fuel line src dest σ x y hne hs hd hi hj, hmod, hi, hj]
  refine ⟨⟨?_, ?_⟩, h1, h2, ?_⟩
  · rintro ⟨status, msg, σ1, h⟩
    by_contra hcon
    push_neg at hcon
    rw [h3 (by simpa using hcon.1) (by simpa using hcon.2)] at h
    simp at h
  · rintro (hi | hj)
    · exact ⟨2, _, σ, h1 hi⟩
    · cases hi : x.init with
      | false => exact ⟨2, _, σ, h1 hi⟩
      | true => exact ⟨2, _, σ, h2 hi hj⟩
  · intro hi hj
    refine ⟨h3 hi hj, ?_, ?_, ?_⟩
    · rw [List.getElem?_set_ne hne, List.getElem?_set_self hdlt]
    · rw [List.getElem?_set_self]
      simpa using hslt
    · intro z hzs hzd
      rw [List.getElem?_set_ne (Ne.symm hzs), List.getElem?_set_ne (Ne.symm hzd)]

/-- C12 (amended) at `src = 4`, `dest = 3`. -/
theorem add_clear_spec_witness :
    execute_stmt 0 (stmt_t.AddClear 1 0 1) [⟨"S", true, 4⟩, ⟨"D", true, 3⟩] =
      Outcome.ok [⟨"S", true, 0⟩, ⟨"D", true, 7⟩] :=
  ((add_clear_spec 0 1 0 1 [⟨"S", true, 4⟩, ⟨"D", true, 3⟩] ⟨"S", true, 4⟩ ⟨"D", true, 3⟩
    (by decide) rfl rfl (by decide)).2.2.2 rfl rfl).1

/-! ## Sequences -/

/-- C18: executing `s1 ++ s2` is executing `s1` and then, when `s1` returned,
executing `s2` from the store `s1` returned; when `s1` did not return, the
outcome of the whole sequence is the outcome of `s1` (the same exit status and
diagnostic, with the store as it was at the exit), so that nothing of `s2` is
executed.  The store at an exit holds the effects of the statements executed
before the one that failed: `clear X; incr Y; clear Z` with `Y` uninitialized
exits with `X` cleared and `Z` untouched. -/
theorem execute_stmt_list_append (fuel : Nat) (s1 s2 : List stmt_t) (σ : Store) :
    execute_stmt_list fuel (s1 ++ s2) σ =
      (match execute_stmt_list fuel s1 σ with
        | Outcome.ok σ1 => execute_stmt_list fuel s2 σ1
        | o => o) ∧
    (∀ status msg σ1, execute_stmt_list fuel s1 σ = Outcome.exit status msg σ1 →
      execute_stmt_list fuel (s1 ++ s2) σ = Outcome.exit status msg σ1) ∧
    (∀ stmt σ1, execute_stmt_list fuel s1 σ = Outcome.ok σ1 →
      execute_stmt_list fuel (s1 ++ stmt :: s2) σ =
        (match execute_stmt fuel stmt σ1 with
          | Outcome.ok σ2 => execute_stmt_list fuel s2 σ2
          | o => o)) ∧
    execute_stmt_list fuel ([stmt_t.Clear 1 0, stmt_t.Incr 2 1] ++ [stmt_t.Clear 3 2])
        [⟨"X", true, 4⟩, ⟨"Y", false, 0⟩, ⟨"Z", true, 9⟩] =
      Outcome.exit 2 (Message.uninitialized 2 "Y")
        [⟨"X", true, 0⟩, ⟨"Y", false, 0⟩, ⟨"Z", true, 9⟩] := by
  have key : ∀ (l1 l2 : List stmt_t) (τ : Store),
      execute_stmt_list fuel (l1 ++ l2) τ =
        (match execute_stmt_list fuel l1 τ with
          | Outcome.ok τ1 => execute_stmt_list fuel l2 τ1
          | o => o) := by
    intro l1
    induction l1 with
    | nil =>
      intro l2 τ
      simp only [List.nil_append, execute_stmt_list]
    | cons stmt next ih =>
      intro l2 τ
      simp only [List.cons_append, execute_stmt_list]
      cases execute_stmt fuel stmt τ with
      | ok τ1 => exact ih l2 τ1
      | exit status msg τ1 => rfl
      | undefined => rfl
      | timeout => rfl
  refine ⟨key s1 s2 σ, ?_, ?_, ?_⟩
  · intro status msg σ1 h
    rw [key, h]
  · intro stmt σ1 h
    rw [key, h]
    simp only [execute_stmt_list]
  · simp [execute_stmt_list, execute_stmt, check_var_init]

/-! ## Loops with a short body -/

/-- C19 fails on the code at a loop with an empty body: `optimize_while_stmt`
does not complete, whatever the line and the control variable, because
`second_stmt = first_stmt->next` is evaluated with `first_stmt` being `NULL`.
On a body of one statement it completes, does not match, and returns the loop
on the same line and control variable over the optimized body. -/
theorem optimize_short_body (line : Int) (b : Nat) :
    optimize_while_stmt (stmt_t.While line b []) = none ∧
    ∀ stmt, optimize_while_stmt (stmt_t.While line b [stmt]) =
      (optimize_stmt_list [stmt]).map (stmt_t.While line b) := by
  constructor
  · simp [optimize_while_stmt]
  · intro stmt
    rw [optimize_while_stmt_cons]
    simp only [find_match]
    cases optimize_stmt_list [stmt] with
    | none => rfl
    | some body1 => rfl

/-! ## The frame of the executor -/

theorem store_le_refl (σ : Store) : store_le σ σ := by
  induction σ with
  | nil => exact List.Forall₂.nil
  | cons a t ih => exact List.Forall₂.cons ⟨rfl, fun h => h⟩ ih

theorem store_le_trans {σ σ1 σ2 : Store} (h1 : store_le σ σ1) (h2 : store_le σ1 σ2) :
    store_le σ σ2 := by
  unfold store_le at *
  induction h1 generalizing σ2 with
  | nil =>
    cases h2
    exact List.Forall₂.nil
  | cons hab _ ih =>
    cases h2 with
    | cons hbc htl =>
      exact List.Forall₂.cons ⟨hbc.1.trans hab.1, fun h => hbc.2 (hab.2 h)⟩ (ih htl)

theorem store_le_set (σ : Store) (i : Nat) (x y : var_t) (hx : σ[i]? = some x)
    (hname : y.name = x.name) (hinit : x.init = true → y.init = true) :
    store_le σ (σ.set i y) := by
  induction σ generalizing i with
  | nil => exact List.Forall₂.nil
  | cons a t ih =>
    cases i with
    | zero =>
      simp only [List.getElem?_cons_zero, Option.some.injEq] at hx
      subst hx
      exact List.Forall₂.cons ⟨hname, hinit⟩ (store_le_refl t)
    | succ k =>
      simp only [List.getElem?_cons_succ] at hx
      exact List.Forall₂.cons ⟨rfl, fun h => h⟩ (ih k hx)

theorem store_le_length {σ σ1 : Store} (h : store_le σ σ1) : σ1.length = σ.length :=
  (List.Forall₂.length_eq h).symm

theorem store_le_names {σ σ1 : Store} (h : store_le σ σ1) :
    σ1.map var_t.name = σ.map var_t.name := by
  unfold store_le at h
  induction h with
  | nil => rfl
  | cons hab _ ih => simp only [List.map_cons, hab.1, ih]

theorem store_le_getElem? {σ σ1 : Store} (h : store_le σ σ1) (i : Nat) (x : var_t)
    (hx : σ[i]? = some x) :
    ∃ x1, σ1[i]? = some x1 ∧ x1.name = x.name ∧ (x.init = true → x1.init = true) := by
  unfold store_le at h
  induction h generalizing i with
  | nil => simp at hx
  | cons hab _ ih =>
    cases i with
    | zero =>
      simp only [List.getElem?_cons_zero, Option.some.injEq] at hx ⊢
      subst hx
      exact ⟨_, rfl, hab.1, hab.2⟩
    | succ k =>
      simp only [List.getElem?_cons_succ] at hx ⊢
      exact ih k hx

theorem all_init_of_store_le {σ σ1 : Store} (h : store_le σ σ1) (ha : all_init σ) :
    all_init σ1 := by
  unfold store_le at h
  induction h with
  | nil => exact ha
  | cons hab _ ih =>
    intro z hz
    rcases List.mem_cons.mp hz with hz | hz
    · rw [hz]
      exact hab.2 (ha _ (List.mem_cons_self _ _))
    · exact ih (fun w hw => ha w (List.mem_cons_of_mem _ hw)) z hz

/-- The loop keeps the frame when its body does. -/
theorem while_loop_frame (body : Store → Outcome) (var : Nat)
    (hb : ∀ τ τ1, (body τ).store = some τ1 → store_le τ τ1) :
    ∀ (fuel : Nat) (σ σ1 : Store), (while_loop body var fuel σ).store = some σ1 →
      store_le σ σ1 := by
  intro fuel
  induction fuel with
  | zero =>
    intro σ σ1 h
    simp [while_loop, Outcome.store] at h
  | succ n ih =>
    intro σ σ1 h
    simp only [while_loop] at h
    cases hx : σ[var]? with
    | none =>
      simp [hx, Outcome.store] at h
    | some x =>
      simp only [hx] at h
      by_cases h0 : x.val ≠ 0
      · simp only [if_pos h0] at h
        cases hb1 : body σ with
        | ok τ =>
          simp only [hb1] at h
          exact store_le_trans (hb σ τ (by rw [hb1]; rfl)) (ih τ σ1 h)
        | exit status msg τ =>
          simp only [hb1] at h
          exact hb σ σ1 (by rw [hb1]; exact h)
        | undefined =>
          simp [hb1, Outcome.store] at h
        | timeout =>
          simp [hb1, Outcome.store] at h
      · simp only [if_neg h0, Outcome.store, Option.some.injEq] at h
        rw [← h]
        exact store_le_refl σ

mutual
theorem execute_stmt_frame : ∀ (stmt : stmt_t) (fuel : Nat) (σ σ1 : Store),
    (execute_stmt fuel stmt σ).store = some σ1 → store_le σ σ1
  | stmt_t.Clear _ var, fuel, σ, σ1, h => by
    simp only [execute_stmt] at h
    cases hx : σ[var]? with
    | none => simp [hx, Outcome.store] at h
    | some x =>
      simp only [hx, Outcome.store, Option.some.injEq] at h
      rw [← h]
      exact store_le_set σ var x _ hx rfl (fun _ => rfl)
  | stmt_t.Incr line var, fuel, σ, σ1, h => by
    simp only [execute_stmt] at h
    cases hx : σ[var]? with
    | none => simp [hx, Outcome.store] at h
    | some x =>
      simp only [hx] at h
      cases hc : check_var_init line x with
      | some msg =>
        simp only [hc, Outcome.store, Option.some.injEq] at h
        rw [← h]
        exact store_le_refl σ
      | none =>
        simp only [hc] at h
        by_cases hm : x.val = UINTMAX_MAX
        · simp only [if_pos hm, Outcome.store, Option.some.injEq] at h
          rw [← h]
          exact store_le_refl σ
        · simp only [if_neg hm, Outcome.store, Option.some.injEq] at h
          rw [← h]
          exact store_le_set σ var x _ hx rfl (fun hi => hi)
  | stmt_t.Decr line var, fuel, σ, σ1, h => by
    simp only [execute_stmt] at h
    cases hx : σ[var]? with
    | none => simp [hx, Outcome.store] at h
    | some x =>
      simp only [hx] at h
      cases hc : check_var_init line x with
      | some msg =>
        simp only [hc, Outcome.store, Option.some.injEq] at h
        rw [← h]
        exact store_le_refl σ
      | none =>
        simp only [hc] at h
        by_cases hm : x.val ≠ 0
        · simp only [if_pos hm, Outcome.store, Option.some.injEq] at h
          rw [← h]
          exact store_le_set σ var x _ hx rfl (fun hi => hi)
        · simp only [if_neg hm, Outcome.store, Option.some.injEq] at h
          rw [← h]
          exact store_le_refl σ
  | stmt_t.Copy line var dest, fuel, σ, σ1, h => by
    simp only [execute_stmt] at h
    cases hx : σ[var]? with
    | none => simp [hx, Outcome.store] at h
    | some x =>
      simp only [hx] at h
      cases hc : check_var_init line x with
      | some msg =>
        simp only [hc, Outcome.store, Option.some.injEq] at h
        rw [← h]
        exact store_le_refl σ
      | none =>
        simp only [hc] at h
        cases hd : σ[dest]? with
        | none => simp [hd, Outcome.store] at h
        | some d =>
          simp only [hd, Outcome.store, Option.some.injEq] at h
          rw [← h]
          exact store_le_set σ dest d _ hd rfl (fun _ => rfl)
  | stmt_t.AddClear line var dest, fuel, σ, σ1, h => by
    simp only [execute_stmt] at h
    cases hx : σ[var]? with
    | none => simp [hx, Outcome.store] at h
    | some x =>
      simp only [hx] at h
      cases hc : check_var_init line x with
      | some msg =>
        simp only [hc, Outcome.store, Option.some.injEq] at h
        rw [← h]
        exact store_le_refl σ
      | none =>
        simp only [hc] at h
        cases hd : σ[dest]? with
        | none => simp [hd, Outcome.store] at h
        | some d =>
          simp only [hd] at h
          cases hc2 : check_var_init line d with
          | some msg =>
            simp only [hc2, Outcome.store, Option.some.injEq] at h
            rw [← h]
            exact store_le_refl σ
          | none =>
            simp only [hc2] at h
            have hle1 := store_le_set σ dest d
              { d with val := (d.val + x.val) % 2 ^ 64 } hd rfl (fun hi => hi)
            cases hx1 : (σ.set dest { d with val := (d.val + x.val) % 2 ^ 64 })[var]? with
            | none =>
              rw [hx1] at h
              simp [Outcome.store] at h
            | some x1 =>
              rw [hx1] at h
              simp only [Outcome.store, Option.some.injEq] at h
              rw [← h]
              exact store_le_trans hle1 (store_le_set _ var x1 _ hx1 rfl (fun hi => hi))
  | stmt_t.While line var stmt_list, fuel, σ, σ1, h => by
    have ihl := execute_stmt_list_frame stmt_list fuel
    simp only [execute_stmt] at h
    cases hx : σ[var]? with
    | none => simp [hx, Outcome.store] at h
    | some x =>
      simp only [hx] at h
      cases hc : check_var_init line x with
      | some msg =>
        simp only [hc, Outcome.store, Option.some.injEq] at h
        rw [← h]
        exact store_le_refl σ
      | none =>
        simp only [hc] at h
        exact while_loop_frame _ var ihl fuel σ σ1 h
theorem execute_stmt_list_frame : ∀ (list : List stmt_t) (fuel : Nat) (σ σ1 : Store),
    (execute_stmt_list fuel list σ).store = some σ1 → store_le σ σ1
  | [], fuel, σ, σ1, h => by
    simp only [execute_stmt_list, Outcome.store, Option.some.injEq] at h
    rw [← h]
    exact store_le_refl σ
  | stmt :: next, fuel, σ, σ1, h => by
    have ihs := execute_stmt_frame stmt fuel σ
    have ihn := execute_stmt_list_frame next fuel
    simp only [execute_stmt_list] at h
    cases hs : execute_stmt fuel stmt σ with
    | ok τ =>
      simp only [hs] at h
      exact store_le_trans (ihs τ (by rw [hs]; rfl)) (ihn τ σ1 h)
    | exit status msg τ =>
      simp only [hs] at h
      exact ihs σ1 (by rw [hs]; exact h)
    | undefined => simp [hs, Outcome.store] at h
    | timeout => simp [hs, Outcome.store] at h
end

/-- C20: in the store that a statement or a sequence returns, or exits with,
the variables are those of the store it started from, one for one and in the
same order, each with its name, and every variable that was initialized still
is.  A `Clear`, `Incr` or `Decr` that returns leaves every variable other than
its own as it was, a `Copy` every variable other than `dest`, and an
`AddClear` every variable other than `src` and `dest`. -/
theorem executor_frame (fuel : Nat) (σ σ1 : Store) :
    (∀ stmt, (execute_stmt fuel stmt σ).store = some σ1 →
      σ1.map var_t.name = σ.map var_t.name ∧ σ1.length = σ.length ∧
      ∀ (i : Nat) (x : var_t), σ[i]? = some x →
        ∃ x1 : var_t, σ1[i]? = some x1 ∧ x1.name = x.name ∧
          (x.init = true → x1.init = true)) ∧
    (∀ list, (execute_stmt_list fuel list σ).store = some σ1 →
      σ1.map var_t.name = σ.map var_t.name ∧ σ1.length = σ.length ∧
      ∀ (i : Nat) (x : var_t), σ[i]? = some x →
        ∃ x1 : var_t, σ1[i]? = some x1 ∧ x1.name = x.name ∧
          (x.init = true → x1.init = true)) ∧
    (∀ line v, execute_stmt fuel (stmt_t.Clear line v) σ = Outcome.ok σ1 →
      ∀ z, z ≠ v → σ1[z]? = σ[z]?) ∧
    (∀ line v, execute_stmt fuel (stmt_t.Incr line v) σ = Outcome.ok σ1 →
      ∀ z, z ≠ v → σ1[z]? = σ[z]?) ∧
    (∀ line v, execute_stmt fuel (stmt_t.Decr line v) σ = Outcome.ok σ1 →
      ∀ z, z ≠ v → σ1[z]? = σ[z]?) ∧
    (∀ line src dest, execute_stmt fuel (stmt_t.Copy line src dest) σ = Outcome.ok σ1 →
      ∀ z, z ≠ dest → σ1[z]? = σ[z]?) ∧
    (∀ line src dest, execute_stmt fuel (stmt_t.AddClear line src dest) σ = Outcome.ok σ1 →
      ∀ z, z ≠ src → z ≠ dest → σ1[z]? = σ[z]?) := by
  refine ⟨?_, ?_, ?_, ?_, ?_, ?_, ?_⟩
  · intro stmt h
    have hle := execute_stmt_frame stmt fuel σ σ1 h
    exact ⟨store_le_names hle, store_le_length hle, store_le_getElem? hle⟩
  · intro list h
    have hle := execute_stmt_list_frame list fuel σ σ1 h
    exact ⟨store_le_names hle, store_le_length hle, store_le_getElem? hle⟩
  · intro line v h z hz
    simp only [execute_stmt] at h
    cases hx : σ[v]? with
    | none => simp [hx] at h
    | some x =>
      simp only [hx, Outcome.ok.injEq] at h
      rw [← h, List.getElem?_set_ne (Ne.symm hz)]
  · intro line v h z hz
    simp only [execute_stmt] at h
    cases hx : σ[v]? with
    | none => simp [hx] at h
    | some x =>
      simp only [hx] at h
      cases hc : check_var_init line x with
      | some msg => simp [hc] at h
      | none =>
        simp only [hc] at h
        by_cases hm : x.val = UINTMAX_MAX
        · simp [if_pos hm] at h
        · simp only [if_neg hm, Outcome.ok.injEq] at h
          rw [← h, List.getElem?_set_ne (Ne.symm hz)]
  · intro line v h z hz
    simp only [execute_stmt] at h
    cases hx : σ[v]? with
    | none => simp [hx] at h
    | some x =>
      simp only [hx] at h
      cases hc : check_var_init line x with
      | some msg => simp [hc] at h
      | none =>
        simp only [hc] at h
        by_cases hm : x.val ≠ 0
        · simp only [if_pos hm, Outcome.ok.injEq] at h
          rw [← h, List.getElem?_set_ne (Ne.symm hz)]
        · simp only [if_neg hm, Outcome.ok.injEq] at h
          rw [← h]
  · intro line src dest h z hz
    simp only [execute_stmt] at h
    cases hx : σ[src]? with
    | none => simp [hx] at h
    | some x =>
      simp only [hx] at h
      cases hc : check_var_init line x with
      | some msg => simp [hc] at h
      | none =>
        simp only [hc] at h
        cases hd : σ[dest]? with
        | none => simp [hd] at h
        | some d =>
          simp only [hd, Outcome.ok.injEq] at h
          rw [← h, List.getElem?_set_ne (Ne.symm hz)]
  · intro line src dest h z hzs hzd
    simp only [execute_stmt] at h
    cases hx : σ[src]? with
    | none => simp [hx] at h
    | some x =>
      simp only [hx] at h
      cases hc : check_var_init line x with
      | some msg => simp [hc] at h
      | none =>
        simp only [hc] at h
        cases hd : σ[dest]? with
        | none => simp [hd] at h
        | some d =>
          simp only [hd] at h
          cases hc2 : check_var_init line d with
          | some msg => simp [hc2] at h
          | none =>
            simp only [hc2] at h
            cases hx1 : (σ.set dest { d with val := (d.val + x.val) % 2 ^ 64 })[src]? with
            | none =>
              rw [hx1] at h
              simp at h
            | some x1 =>
              rw [hx1] at h
              simp only [Outcome.ok.injEq] at h
              rw [← h, List.getElem?_set_ne (Ne.symm hzs), List.getElem?_set_ne (Ne.symm hzd)]

/-- C20 on a program with a loop: the names and their order are kept, `Z`
becomes initialized and nothing becomes uninitialized. -/
theorem executor_frame_witness :
    execute_stmt_list 3 [stmt_t.Copy 1 0 2, stmt_t.While 2 0 [stmt_t.Decr 3 0, stmt_t.Incr 4 1]]
        [⟨"X", true, 1⟩, ⟨"Y", true, 0⟩, ⟨"Z", false, 0⟩] =
      Outcome.ok [⟨"X", true, 0⟩, ⟨"Y", true, 1⟩, ⟨"Z", true, 1⟩] ∧
    List.map var_t.name [⟨"X", true, 0⟩, ⟨"Y", true, 1⟩, ⟨"Z", true, 1⟩] =
      List.map var_t.name [⟨"X", true, 1⟩, ⟨"Y", true, 0⟩, ⟨"Z", false, 0⟩] :=
  ⟨by decide,
    ((executor_frame 3 [⟨"X", true, 1⟩, ⟨"Y", true, 0⟩, ⟨"Z", false, 0⟩]
      [⟨"X", true, 0⟩, ⟨"Y", true, 1⟩, ⟨"Z", true, 1⟩]).2.1
      [stmt_t.Copy 1 0 2, stmt_t.While 2 0 [stmt_t.Decr 3 0, stmt_t.Incr 4 1]]
      (by decide)).1⟩

/-! ## The semantics of the loop -/

/-- The `WHILE_STMT` case of `execute_stmt` on an initialized control variable. -/
theorem execute_While_init (fuel : Nat) (line : Int) (v : Nat) (body : List stmt_t)
    (σ : Store) (x : var_t) (hv : σ[v]? = some x) (hi : x.init = true) :
    execute_stmt fuel (stmt_t.While line v body) σ =
      while_loop (execute_stmt_list fuel body) v fuel σ := by
  simp only [execute_stmt, hv, check_var_init_of_init _ hi]

/-- C11: let `v` be a variable of the store.  When `v` is uninitialized,
`While (v, body)` exits with status 2 and the uninitialized-variable
diagnostic, the store untouched.  When `v` is initialized and 0 it returns the
store unchanged, whatever the body.  When `v` is initialized and nonzero: if
the body does not return, the outcome of the loop is the outcome of the body;
if the body returns `σ1`, the outcome of the loop is the outcome of the loop
on `σ1` (with one more unit of fuel); and conversely every outcome of the loop
arises in one of these two ways.  The loop itself never changes `v`: over an
empty body, from a nonzero `v`, it never returns. -/
theorem while_semantics (fuel : Nat) (line : Int) (v : Nat) (body : List stmt_t)
    (σ : Store) (x : var_t) (hv : σ[v]? = some x) :
    (x.init = false → execute_stmt fuel (stmt_t.While line v body) σ =
      Outcome.exit 2 (Message.uninitialized line x.name) σ) ∧
    (x.init = true → x.val = 0 →
      execute_stmt (fuel + 1) (stmt_t.While line v body) σ = Outcome.ok σ) ∧
    (x.init = true → x.val ≠ 0 →
      (∀ o, execute_stmt_list (fuel + 1) body σ = o → (∀ σ1, o ≠ Outcome.ok σ1) →
        execute_stmt (fuel + 1) (stmt_t.While line v body) σ = o) ∧
      (∀ σ1, execute_stmt_list fuel body σ = Outcome.ok σ1 →
        execute_stmt fuel (stmt_t.While line v body) σ1 ≠ Outcome.timeout →
        execute_stmt (fuel + 1) (stmt_t.While line v body) σ =
          execute_stmt fuel (stmt_t.While line v body) σ1) ∧
      (∀ o, execute_stmt fuel (stmt_t.While line v body) σ = o → o ≠ Outcome.timeout →
        (execute_stmt_list fuel body σ = o ∧ ∀ σ1, o ≠ Outcome.ok σ1) ∨
        ∃ σ1, execute_stmt_list fuel body σ = Outcome.ok σ1 ∧
          execute_stmt fuel (stmt_t.While line v body) σ1 = o) ∧
      execute_stmt fuel (stmt_t.While line v []) σ = Outcome.timeout) := by
  refine ⟨?_, ?_, ?_⟩
  · intro hi
    simp only [execute_stmt, hv, check_var_init_of_not_init _ hi]
  · intro hi h0
    rw [execute_While_init _ line v body σ x hv hi]
    simp [while_loop, hv, h0]
  · intro hi h0
    have hinit1 : ∀ (n : Nat) (σ1 : Store), execute_stmt_list n body σ = Outcome.ok σ1 →
        ∃ x1, σ1[v]? = some x1 ∧ x1.init = true := by
      intro n σ1 hb
      obtain ⟨x1, hx1, _, hxi⟩ :=
        store_le_getElem? (execute_stmt_list_frame body n σ σ1 (by rw [hb]; rfl)) v x hv
      exact ⟨x1, hx1, hxi hi⟩
    refine ⟨?_, ?_, ?_, ?_⟩
    · intro o hb hno
      rw [execute_While_init _ line v body σ x hv hi]
      cases o with
      | ok σ1 => exact absurd rfl (hno σ1)
      | exit status msg σ1 => simp only [while_loop, hv, if_pos h0, hb]
      | undefined => simp only [while_loop, hv, if_pos h0, hb]
      | timeout => simp only [while_loop, hv, if_pos h0, hb]
    · intro σ1 hb hnt
      obtain ⟨x1, hx1, hxi1⟩ := hinit1 fuel σ1 hb
      rw [execute_While_init _ line v body σ1 x1 hx1 hxi1] at hnt ⊢
      rw [execute_While_init _ line v body σ x hv hi]
      have hb1 := execute_stmt_list_ok_mono hb (fuel + 1) (Nat.le_succ fuel)
      simp only [while_loop, hv, if_pos h0, hb1]
      exact while_loop_mono _ _ v
        (fun τ hτ => execute_stmt_list_mono body fuel (fuel + 1) τ (Nat.le_succ fuel) hτ)
        fuel fuel σ1 (le_refl _) hnt
    · intro o ho hnt
      rw [execute_While_init _ line v body σ x hv hi] at ho
      cases fuel with
      | zero =>
        simp only [while_loop] at ho
        exact absurd ho.symm hnt
      | succ n =>
        simp only [while_loop, hv, if_pos h0] at ho
        cases hb : execute_stmt_list (n + 1) body σ with
        | ok σ1 =>
          right
          simp only [hb] at ho
          obtain ⟨x1, hx1, hxi1⟩ := hinit1 (n + 1) σ1 hb
          refine ⟨σ1, rfl, ?_⟩
          rw [execute_While_init _ line v body σ1 x1 hx1 hxi1]
          rw [← ho]
          exact while_loop_mono _ _ v (fun _ _ => rfl) n (n + 1) σ1 (Nat.le_succ n)
            (by rw [ho]; exact hnt)
        | exit status msg σ1 =>
          left
          simp only [hb] at ho
          exact ⟨ho, fun σ2 => by rw [← ho]; simp⟩
        | undefined =>
          left
          simp only [hb] at ho
          exact ⟨ho, fun σ2 => by rw [← ho]; simp⟩
        | timeout =>
          simp only [hb] at ho
          exact absurd ho.symm hnt
    · rw [execute_While_init _ line v [] σ x hv hi]
      have key : ∀ n, while_loop (execute_stmt_list fuel []) v n σ = Outcome.timeout := by
        intro n
        induction n with
        | zero => simp [while_loop]
        | succ k ih =>
          rw [while_loop]
          simp only [hv, if_pos h0, execute_stmt_list_nil]
          exact ih
      exact key fuel

/-- C11 on `while X [ decr X ]`: uninitialized `X`, `X = 0`, and one unrolling
from `X = 1`. -/
theorem while_semantics_witness :
    execute_stmt 1 (stmt_t.While 1 0 [stmt_t.Decr 2 0]) [⟨"X", false, 0⟩] =
      Outcome.exit 2 (Message.uninitialized 1 "X") [⟨"X", false, 0⟩] ∧
    execute_stmt (1 + 1) (stmt_t.While 1 0 [stmt_t.Decr 2 0]) [⟨"X", true, 0⟩] =
      Outcome.ok [⟨"X", true, 0⟩] ∧
    execute_stmt (1 + 1) (stmt_t.While 1 0 [stmt_t.Decr 2 0]) [⟨"X", true, 1⟩] =
      execute_stmt 1 (stmt_t.While 1 0 [stmt_t.Decr 2 0]) [⟨"X", true, 0⟩] :=
  ⟨(while_semantics 1 1 0 [stmt_t.Decr 2 0] [⟨"X", false, 0⟩] ⟨"X", false, 0⟩ rfl).1 rfl,
    (while_semantics 1 1 0 [stmt_t.Decr 2 0] [⟨"X", true, 0⟩] ⟨"X", true, 0⟩ rfl).2.1 rfl rfl,
    ((while_semantics 1 1 0 [stmt_t.Decr 2 0] [⟨"X", true, 1⟩] ⟨"X", true, 1⟩ rfl).2.2 rfl
      (by decide)).2.1 [⟨"X", true, 0⟩] (by decide) (by decide)⟩

/-! ## The eager-zero policy -/

theorem init_of_all_init {σ : Store} (ha : all_init σ) {i : Nat} {x : var_t}
    (hx : σ[i]? = some x) : x.init = true :=
  ha x (List.mem_iff_getElem?.mpr ⟨i, hx⟩)

/-- With every variable initialized the loop does not exit on an uninitialized
variable when its body does not. -/
theorem while_loop_no_uninit (body : Store → Outcome) (var : Nat)
    (hf : ∀ τ τ1, (body τ).store = some τ1 → store_le τ τ1)
    (hb : ∀ τ, all_init τ → ∀ status line name τ1,
      body τ ≠ Outcome.exit status (Message.uninitialized line name) τ1) :
    ∀ (fuel : Nat) (σ : Store), all_init σ → ∀ status line name σ1,
      while_loop body var fuel σ ≠ Outcome.exit status (Message.uninitialized line name) σ1 := by
  intro fuel
  induction fuel with
  | zero =>
    intro σ _ status line name σ1 h
    simp [while_loop] at h
  | succ n ih =>
    intro σ ha status line name σ1 h
    simp only [while_loop] at h
    cases hx : σ[var]? with
    | none => simp [hx] at h
    | some x =>
      simp only [hx] at h
      by_cases h0 : x.val ≠ 0
      · simp only [if_pos h0] at h
        cases hb1 : body σ with
        | ok τ =>
          simp only [hb1] at h
          exact ih τ (all_init_of_store_le (hf σ τ (by rw [hb1]; rfl)) ha) status line name σ1 h
        | exit status1 msg τ =>
          simp only [hb1] at h
          rw [h] at hb1
          exact hb σ ha status line name σ1 hb1
        | undefined => simp [hb1] at h
        | timeout => simp [hb1] at h
      · simp [if_neg h0] at h

mutual
theorem execute_stmt_no_uninit : ∀ (stmt : stmt_t) (fuel : Nat) (σ : Store), all_init σ →
    ∀ status line name σ1,
      execute_stmt fuel stmt σ ≠ Outcome.exit status (Message.uninitialized line name) σ1
  | stmt_t.Clear _ var, fuel, σ, _, status, line, name, σ1, h => by
    simp only [execute_stmt] at h
    cases hx : σ[var]? with
    | none => simp [hx] at h
    | some x => simp [hx] at h
  | stmt_t.Incr l var, fuel, σ, ha, status, line, name, σ1, h => by
    simp only [execute_stmt] at h
    cases hx : σ[var]? with
    | none => simp [hx] at h
    | some x =>
      simp only [hx, check_var_init_of_init _ (init_of_all_init ha hx)] at h
      by_cases hm : x.val = UINTMAX_MAX
      · simp [if_pos hm] at h
      · simp [if_neg hm] at h
  | stmt_t.Decr l var, fuel, σ, ha, status, line, name, σ1, h => by
    simp only [execute_stmt] at h
    cases hx : σ[var]? with
    | none => simp [hx] at h
    | some x =>
      simp only [hx, check_var_init_of_init _ (init_of_all_init ha hx)] at h
      by_cases hm : x.val ≠ 0
      · simp [if_pos hm] at h
      · simp [if_neg hm] at h
  | stmt_t.Copy l var dest, fuel, σ, ha, status, line, name, σ1, h => by
    simp only [execute_stmt] at h
    cases hx : σ[var]? with
    | none => simp [hx] at h
    | some x =>
      simp only [hx, check_var_init_of_init _ (init_of_all_init ha hx)] at h
      cases hd : σ[dest]? with
      | none => simp [hd] at h
      | some d => simp [hd] at h
  | stmt_t.AddClear l var dest, fuel, σ, ha, status, line, name, σ1, h => by
    simp only [execute_stmt] at h
    cases hx : σ[var]? with
    | none => simp [hx] at h
    | some x =>
      simp only [hx, check_var_init_of_init _ (init_of_all_init ha hx)] at h
      cases hd : σ[dest]? with
      | none => simp [hd] at h
      | some d =>
        simp only [hd, check_var_init_of_init _ (init_of_all_init ha hd)] at h
        cases hx1 : (σ.set dest { d with val := (d.val + x.val) % 2 ^ 64 })[var]? with
        | none =>
          rw [hx1] at h
          simp at h
        | some x1 =>
          rw [hx1] at h
          simp at h
  | stmt_t.While l var stmt_list, fuel, σ, ha, status, line, name, σ1, h => by
    have ihl := execute_stmt_list_no_uninit stmt_list fuel
    simp only [execute_stmt] at h
    cases hx : σ[var]? with
    | none => simp [hx] at h
    | some x =>
      simp only [hx, check_var_init_of_init _ (init_of_all_init ha hx)] at h
      exact while_loop_no_uninit _ var (execute_stmt_list_frame stmt_list fuel) ihl fuel σ ha
        status line name σ1 h
theorem execute_stmt_list_no_uninit : ∀ (list : List stmt_t) (fuel : Nat) (σ : Store),
    all_init σ → ∀ status line name σ1,
      execute_stmt_list fuel list σ ≠ Outcome.exit status (Message.uninitialized line name) σ1
  | [], fuel, σ, _, status, line, name, σ1, h => by
    simp [execute_stmt_list] at h
  | stmt :: next, fuel, σ, ha, status, line, name, σ1, h => by
    have ihs := execute_stmt_no_uninit stmt fuel σ ha
    have ihn := execute_stmt_list_no_uninit next fuel
    simp only [execute_stmt_list] at h
    cases hs : execute_stmt fuel stmt σ with
    | ok τ =>
      simp only [hs] at h
      exact ihn τ (all_init_of_store_le (execute_stmt_frame stmt fuel σ τ (by rw [hs]; rfl)) ha)
        status line name σ1 h
    | exit status1 msg τ =>
      simp only [hs] at h
      rw [h] at hs
      exact ihs status line name σ1 hs
    | undefined => simp [hs] at h
    | timeout => simp [hs] at h
end

theorem all_init_find_var (name : String) (σ : Store) (ha : all_init σ) :
    all_init (find_var true name σ).2 := by
  unfold find_var
  cases (var_head σ).find? (fun p => strcasecmp_eq name p.2.name) with
  | some p => exact ha
  | none =>
    intro z hz
    rcases List.mem_append.mp hz with hz | hz
    · exact ha z hz
    · simp only [List.mem_singleton] at hz
      rw [hz]

theorem all_init_set_var (var val : Nat) (σ σ1 : Store) (ha : all_init σ)
    (h : set_var var val σ = some σ1) : all_init σ1 := by
  unfold set_var at h
  cases hx : σ[var]? with
  | none => simp [hx] at h
  | some x =>
    simp only [hx, Option.some.injEq] at h
    intro z hz
    rw [← h] at hz
    rcases List.mem_or_eq_of_mem_set hz with hz | hz
    · exact ha z hz
    · rw [hz]

/-- C16: the empty store has every variable initialized, and from a store in
which every variable is initialized, `find_var` under the eager-zero policy,
`set_var`, and every statement and every sequence (in the store they return
or exit with) give a store in which every variable is initialized; from such
a store no statement and no sequence exits with the uninitialized-variable
diagnostic.  The program `incr X` on a fresh `X` starts with `X = 0`
initialized, returns, and ends with `X = 1`. -/
theorem eager_zero_all_init (σ : Store) (ha : all_init σ) :
    all_init ([] : Store) ∧
    (∀ name, all_init (find_var true name σ).2) ∧
    (∀ var val σ1, set_var var val σ = some σ1 → all_init σ1) ∧
    (∀ fuel stmt σ1, (execute_stmt fuel stmt σ).store = some σ1 → all_init σ1) ∧
    (∀ fuel list σ1, (execute_stmt_list fuel list σ).store = some σ1 → all_init σ1) ∧
    (∀ fuel stmt status line name σ1,
      execute_stmt fuel stmt σ ≠ Outcome.exit status (Message.uninitialized line name) σ1) ∧
    (∀ fuel list status line name σ1,
      execute_stmt_list fuel list σ ≠
        Outcome.exit status (Message.uninitialized line name) σ1) ∧
    find_var true "X" [] = (0, [⟨"X", true, 0⟩]) ∧
    ∀ fuel, execute_stmt_list fuel [stmt_t.Incr 1 0] [⟨"X", true, 0⟩] =
      Outcome.ok [⟨"X", true, 1⟩] := by
  refine ⟨?_, fun name => all_init_find_var name σ ha,
    fun var val σ1 h => all_init_set_var var val σ σ1 ha h, ?_, ?_,
    fun fuel stmt => execute_stmt_no_uninit stmt fuel σ ha,
    fun fuel list => execute_stmt_list_no_uninit list fuel σ ha, by decide, ?_⟩
  · intro z hz
    simp at hz
  · intro fuel stmt σ1 h
    exact all_init_of_store_le (execute_stmt_frame stmt fuel σ σ1 h) ha
  · intro fuel list σ1 h
    exact all_init_of_store_le (execute_stmt_list_frame list fuel σ σ1 h) ha
  · intro fuel
    simp [execute_stmt_list, execute_stmt, check_var_init, UINTMAX_MAX]

/-- C16 on the store of one fresh variable under the eager-zero policy: a
second variable is created initialized, and `incr X` does not exit with the
uninitialized-variable diagnostic. -/
theorem eager_zero_all_init_witness :
    all_init (find_var true "Y" [⟨"X", true, 0⟩]).2 ∧
    execute_stmt_list 0 [stmt_t.Incr 1 0] [⟨"X", true, 0⟩] ≠
      Outcome.exit 2 (Message.uninitialized 1 "X") [⟨"X", true, 0⟩] :=
  ⟨(eager_zero_all_init [⟨"X", true, 0⟩] (by decide)).2.1 "Y",
    (eager_zero_all_init [⟨"X", true, 0⟩] (by decide)).2.2.2.2.2.2.1 0 [stmt_t.Incr 1 0]
      2 1 "X" [⟨"X", true, 0⟩]⟩

/-! ## The variable store -/

theorem strcasecmp_eq_iff (a b : String) :
    strcasecmp_eq a b = true ↔ a.data.map Char.toLower = b.data.map Char.toLower := by
  unfold strcasecmp_eq
  exact beq_iff_eq

theorem strcasecmp_eq_refl (a : String) : strcasecmp_eq a a = true :=
  (strcasecmp_eq_iff a a).mpr rfl

theorem strcasecmp_eq_symm {a b : String} (h : strcasecmp_eq a b = true) :
    strcasecmp_eq b a = true :=
  (strcasecmp_eq_iff b a).mpr ((strcasecmp_eq_iff a b).mp h).symm

theorem strcasecmp_eq_trans {a b c : String} (h1 : strcasecmp_eq a b = true)
    (h2 : strcasecmp_eq b c = true) : strcasecmp_eq a c = true :=
  (strcasecmp_eq_iff a c).mpr
    (((strcasecmp_eq_iff a b).mp h1).trans ((strcasecmp_eq_iff b c).mp h2))

theorem mem_var_head (σ : Store) (p : Nat × var_t) : p ∈ var_head σ ↔ σ[p.1]? = some p.2 := by
  unfold var_head
  rw [List.mem_reverse]
  exact List.mk_mem_enum_iff_getElem?

/-- The search of `find_var` found a variable: it is returned and the store is
unchanged. -/
theorem find_var_found (init_to_zero : Bool) (name : String) (σ : Store) (p : Nat × var_t)
    (hf : (var_head σ).find? (fun p => strcasecmp_eq name p.2.name) = some p) :
    find_var init_to_zero name σ = (p.1, σ) ∧ σ[p.1]? = some p.2 ∧
      strcasecmp_eq name p.2.name = true := by
  have hp : strcasecmp_eq name p.2.name = true :=
    @List.find?_some _ (fun q : Nat × var_t => strcasecmp_eq name q.2.name) p (var_head σ) hf
  refine ⟨?_, (mem_var_head σ p).mp (List.mem_of_find?_eq_some hf), hp⟩
  unfold find_var
  rw [hf]

/-- The search of `find_var` found nothing: no variable has the name, and a new
one is created. -/
theorem find_var_new (init_to_zero : Bool) (name : String) (σ : Store)
    (hf : (var_head σ).find? (fun p => strcasecmp_eq name p.2.name) = none) :
    find_var init_to_zero name σ =
      (σ.length, σ ++ [{ name := name, init := init_to_zero, val := 0 }]) ∧
    ∀ (i : Nat) (x : var_t), σ[i]? = some x → ¬ strcasecmp_eq name x.name = true := by
  constructor
  · unfold find_var
    rw [hf]
  · intro i x hx
    exact List.find?_eq_none.mp hf (i, x) ((mem_var_head σ (i, x)).mpr hx)

/-- The variables of the store are kept by `find_var`, each at its place. -/
theorem find_var_mono (init_to_zero : Bool) (name : String) (σ : Store) (i : Nat) (x : var_t)
    (hx : σ[i]? = some x) : (find_var init_to_zero name σ).2[i]? = some x := by
  cases hf : (var_head σ).find? (fun p => strcasecmp_eq name p.2.name) with
  | some p =>
    rw [(find_var_found init_to_zero name σ p hf).1]
    exact hx
  | none =>
    rw [(find_var_new init_to_zero name σ hf).1]
    show (σ ++ [_])[i]? = some x
    rw [List.getElem?_append_left (lt_length_of_getElem? hx)]
    exact hx

/-- After `find_var` the pointer it returned is a variable with the name. -/
theorem find_var_present (init_to_zero : Bool) (name : String) (σ : Store) :
    ∃ x : var_t, (find_var init_to_zero name σ).2[(find_var init_to_zero name σ).1]? = some x ∧
      strcasecmp_eq name x.name = true := by
  cases hf : (var_head σ).find? (fun p => strcasecmp_eq name p.2.name) with
  | some p =>
    obtain ⟨h1, h2, h3⟩ := find_var_found init_to_zero name σ p hf
    rw [h1]
    exact ⟨p.2, h2, h3⟩
  | none =>
    rw [(find_var_new init_to_zero name σ hf).1]
    exact ⟨_, List.getElem?_concat_length σ _, strcasecmp_eq_refl name⟩

/-- A variable of the store after `find_var` is a variable of the store before,
or the new one. -/
theorem find_var_mem (init_to_zero : Bool) (name : String) (σ : Store) (x : var_t)
    (hx : x ∈ (find_var init_to_zero name σ).2) :
    x ∈ σ ∨ x = { name := name, init := init_to_zero, val := 0 } := by
  cases hf : (var_head σ).find? (fun p => strcasecmp_eq name p.2.name) with
  | some p =>
    rw [(find_var_found init_to_zero name σ p hf).1] at hx
    exact Or.inl hx
  | none =>
    rw [(find_var_new init_to_zero name σ hf).1] at hx
    rcases List.mem_append.mp hx with h | h
    · exact Or.inl h
    · exact Or.inr (List.mem_singleton.mp h)

theorem find_var_no_dup (init_to_zero : Bool) (name : String) (σ : Store)
    (hn : no_dup_names σ) : no_dup_names (find_var init_to_zero name σ).2 := by
  cases hf : (var_head σ).find? (fun p => strcasecmp_eq name p.2.name) with
  | some p =>
    rw [(find_var_found init_to_zero name σ p hf).1]
    exact hn
  | none =>
    obtain ⟨h1, h2⟩ := find_var_new init_to_zero name σ hf
    rw [h1]
    intro i j x y hx hy hxy
    simp only [List.getElem?_append] at hx hy
    by_cases hi : i < σ.length
    · rw [if_pos hi] at hx
      by_cases hj : j < σ.length
      · rw [if_pos hj] at hy
        exact hn i j x y hx hy hxy
      · rw [if_neg hj] at hy
        have hy1 : y = { name := name, init := init_to_zero, val := 0 } := by
          cases hk : j - σ.length with
          | zero =>
            rw [hk] at hy
            simpa using hy.symm
          | succ k =>
            rw [hk] at hy
            simp at hy
        rw [hy1] at hxy
        exact absurd (strcasecmp_eq_symm hxy) (h2 i x hx)
    · rw [if_neg hi] at hx
      have hx1 : x = { name := name, init := init_to_zero, val := 0 } ∧ i = σ.length := by
        cases hk : i - σ.length with
        | zero =>
          rw [hk] at hx
          exact ⟨by simpa using hx.symm, by omega⟩
        | succ k =>
          rw [hk] at hx
          simp at hx
      by_cases hj : j < σ.length
      · rw [if_pos hj] at hy
        rw [hx1.1] at hxy
        exact absurd hxy (h2 j y hy)
      · rw [if_neg hj] at hy
        have hj1 : j = σ.length := by
          cases hk : j - σ.length with
          | zero => omega
          | succ k =>
            rw [hk] at hy
            simp at hy
        omega

theorem var_head_append (σ : Store) (x : var_t) :
    var_head (σ ++ [x]) = (σ.length, x) :: var_head σ := by
  unfold var_head
  rw [List.enum_append, List.enumFrom_singleton, List.reverse_append]
  rfl

theorem lookups_no_dup (init_to_zero : Bool) : ∀ (names : List String) (σ : Store),
    no_dup_names σ → no_dup_names (lookups init_to_zero names σ)
  | [], _, h => h
  | name :: names, σ, h =>
    lookups_no_dup init_to_zero names _ (find_var_no_dup init_to_zero name σ h)

theorem lookups_mono (init_to_zero : Bool) : ∀ (names : List String) (σ : Store) (i : Nat)
    (x : var_t), σ[i]? = some x → (lookups init_to_zero names σ)[i]? = some x
  | [], _, _, _, h => h
  | name :: names, σ, i, x, h =>
    lookups_mono init_to_zero names _ i x (find_var_mono init_to_zero name σ i x h)

theorem lookups_mem (init_to_zero : Bool) : ∀ (names : List String) (σ : Store) (x : var_t),
    x ∈ lookups init_to_zero names σ → x ∈ σ ∨ x.name ∈ names
  | [], _, _, h => Or.inl h
  | name :: names, σ, x, h => by
    rcases lookups_mem init_to_zero names _ x h with h1 | h1
    · rcases find_var_mem init_to_zero name σ x h1 with h2 | h2
      · exact Or.inl h2
      · right
        rw [h2]
        exact List.mem_cons_self _ _
    · exact Or.inr (List.mem_cons_of_mem _ h1)

theorem lookups_present (init_to_zero : Bool) : ∀ (names : List String) (σ : Store)
    (n : String), n ∈ names →
    ∃ x : var_t, x ∈ lookups init_to_zero names σ ∧ strcasecmp_eq n x.name = true
  | [], _, _, h => by simp at h
  | name :: names, σ, n, h => by
    rcases List.mem_cons.mp h with h1 | h1
    · obtain ⟨x, hx, hn⟩ := find_var_present init_to_zero name σ
      rw [h1]
      exact ⟨x, List.mem_iff_getElem?.mpr ⟨_, lookups_mono init_to_zero names _ _ x hx⟩, hn⟩
    · exact lookups_present init_to_zero names _ n h1

/-- C14: when a variable of the store has the name, ignoring case, `find_var`
returns a pointer to such a variable and leaves the store unchanged; it is the
only such variable when no two names of the store are equal ignoring case.
When there is none, `find_var` returns a pointer to a new variable, added at
the front of the list of `var_head`, with that name, value 0 and the flag of
the policy (initialized under eager-zero, uninitialized under lazy), and every
variable that existed is unchanged at its place.  `find_var` keeps the store
free of two names equal ignoring case, so a store built from the empty store
by `find_var` calls has no two such names, holds a variable for every name
looked up, and holds no variable whose name was not looked up. -/
theorem find_var_spec (init_to_zero : Bool) (name : String) (σ : Store) :
    ((∃ (i : Nat) (x : var_t), σ[i]? = some x ∧ strcasecmp_eq name x.name = true) →
      (find_var init_to_zero name σ).2 = σ ∧
      (∃ x : var_t, σ[(find_var init_to_zero name σ).1]? = some x ∧
        strcasecmp_eq name x.name = true) ∧
      (no_dup_names σ → ∀ (j : Nat) (y : var_t), σ[j]? = some y →
        strcasecmp_eq name y.name = true → j = (find_var init_to_zero name σ).1)) ∧
    ((¬ ∃ (i : Nat) (x : var_t), σ[i]? = some x ∧ strcasecmp_eq name x.name = true) →
      find_var init_to_zero name σ =
        (σ.length, σ ++ [{ name := name, init := init_to_zero, val := 0 }]) ∧
      var_head (σ ++ [{ name := name, init := init_to_zero, val := 0 }]) =
        (σ.length, { name := name, init := init_to_zero, val := 0 }) :: var_head σ ∧
      ∀ (i : Nat) (x : var_t), σ[i]? = some x →
        (σ ++ [{ name := name, init := init_to_zero, val := 0 }])[i]? = some x) ∧
    (no_dup_names σ → no_dup_names (find_var init_to_zero name σ).2) ∧
    (∀ names : List String,
      no_dup_names (lookups init_to_zero names []) ∧
      (∀ n, n ∈ names →
        ∃ x : var_t, x ∈ lookups init_to_zero names [] ∧ strcasecmp_eq n x.name = true) ∧
      (∀ x : var_t, x ∈ lookups init_to_zero names [] → x.name ∈ names)) := by
  refine ⟨?_, ?_, find_var_no_dup init_to_zero name σ, ?_⟩
  · rintro ⟨i, x, hx, hn⟩
    cases hf : (var_head σ).find? (fun p => strcasecmp_eq name p.2.name) with
    | none => exact absurd hn ((find_var_new init_to_zero name σ hf).2 i x hx)
    | some p =>
      obtain ⟨h1, h2, h3⟩ := find_var_found init_to_zero name σ p hf
      rw [h1]
      refine ⟨rfl, ⟨p.2, h2, h3⟩, ?_⟩
      intro hnd j y hy hny
      exact hnd j p.1 y p.2 hy h2 (strcasecmp_eq_trans (strcasecmp_eq_symm hny) h3)
  · intro hno
    cases hf : (var_head σ).find? (fun p => strcasecmp_eq name p.2.name) with
    | some p =>
      obtain ⟨_, h2, h3⟩ := find_var_found init_to_zero name σ p hf
      exact absurd ⟨p.1, p.2, h2, h3⟩ hno
    | none =>
      refine ⟨(find_var_new init_to_zero name σ hf).1, var_head_append σ _, ?_⟩
      intro i x hx
      rw [List.getElem?_append_left (lt_length_of_getElem? hx)]
      exact hx
  · intro names
    refine ⟨lookups_no_dup init_to_zero names [] ?_, lookups_present init_to_zero names [], ?_⟩
    · intro i j x y hx
      simp at hx
    · intro x hx
      rcases lookups_mem init_to_zero names [] x hx with h | h
      · simp at h
      · exact h

/-- C14 on the lookups `X`, `y`, `x`, `Y`, `Z` under the lazy policy: three
variables, with the spelling of the first lookup. -/
theorem find_var_spec_witness :
    lookups false ["X", "y", "x", "Y", "Z"] [] =
      [⟨"X", false, 0⟩, ⟨"y", false, 0⟩, ⟨"Z", false, 0⟩] ∧
    find_var false "x" [⟨"X", false, 0⟩, ⟨"y", false, 0⟩] =
      (0, [⟨"X", false, 0⟩, ⟨"y", false, 0⟩]) ∧
    find_var true "Z" [⟨"X", true, 0⟩, ⟨"y", true, 0⟩] =
      (2, [⟨"X", true, 0⟩, ⟨"y", true, 0⟩, ⟨"Z", true, 0⟩]) ∧
    no_dup_names (lookups false ["X", "y", "x", "Y", "Z"] []) :=
  ⟨by decide, by decide, by decide,
    ((find_var_spec false "X" []).2.2.2 ["X", "y", "x", "Y", "Z"]).1⟩

/-! ## The uninitialized-variable error -/

/-- C15: under the policy that requires explicit initialization, a variable
that `find_var` has just created for a name the store did not hold is
uninitialized, and `Incr` on it, on line `line`, exits with status 2 and the
uninitialized-variable diagnostic that carries the name of the variable and
`line`; the store at the exit is the store before the statement.  The same
holds for every uninitialized variable of a store. -/
theorem incr_uninitialized (fuel : Nat) (line : Int) (name : String) (σ : Store)
    (hnew : ¬ ∃ (i : Nat) (x : var_t), σ[i]? = some x ∧ strcasecmp_eq name x.name = true) :
    (find_var false name σ).2[(find_var false name σ).1]? =
      some { name := name, init := false, val := 0 } ∧
    execute_stmt fuel (stmt_t.Incr line (find_var false name σ).1) (find_var false name σ).2 =
      Outcome.exit 2 (Message.uninitialized line name) (find_var false name σ).2 ∧
    ∀ (τ : Store) (v : Nat) (x : var_t), τ[v]? = some x → x.init = false →
      execute_stmt fuel (stmt_t.Incr line v) τ =
        Outcome.exit 2 (Message.uninitialized line x.name) τ := by
  have hgen : ∀ (τ : Store) (v : Nat) (x : var_t), τ[v]? = some x → x.init = false →
      execute_stmt fuel (stmt_t.Incr line v) τ =
        Outcome.exit 2 (Message.uninitialized line x.name) τ := by
    intro τ v x hx hi
    simp only [execute_stmt, hx, check_var_init_of_not_init _ hi]
  have hf : (var_head σ).find? (fun p => strcasecmp_eq name p.2.name) = none := by
    cases hf : (var_head σ).find? (fun p => strcasecmp_eq name p.2.name) with
    | none => rfl
    | some p =>
      obtain ⟨_, h2, h3⟩ := find_var_found false name σ p hf
      exact absurd ⟨p.1, p.2, h2, h3⟩ hnew
  have hget : (find_var false name σ).2[(find_var false name σ).1]? =
      some { name := name, init := false, val := 0 } := by
    rw [(find_var_new false name σ hf).1]
    exact List.getElem?_concat_length σ _
  exact ⟨hget, hgen _ _ _ hget rfl, hgen⟩

/-- C15 at the scenario of the specification: the program `incr X` on line 1
with no `clear` and no pre-seed. -/
theorem incr_uninitialized_witness :
    find_var false "X" [] = (0, [⟨"X", false, 0⟩]) ∧
    execute_stmt 0 (stmt_t.Incr 1 0) [⟨"X", false, 0⟩] =
      Outcome.exit 2 (Message.uninitialized 1 "X") [⟨"X", false, 0⟩] :=
  ⟨by decide, (incr_uninitialized 0 1 "X" [] (by simp)).2.1⟩

/-! ## Exit statuses -/

theorem while_loop_exit_status (body : Store → Outcome) (var : Nat)
    (hb : ∀ τ status msg τ1, body τ = Outcome.exit status msg τ1 → status = 2) :
    ∀ (fuel : Nat) (σ : Store) status msg σ1,
      while_loop body var fuel σ = Outcome.exit status msg σ1 → status = 2 := by
  intro fuel
  induction fuel with
  | zero =>
    intro σ status msg σ1 h
    simp [while_loop] at h
  | succ n ih =>
    intro σ status msg σ1 h
    simp only [while_loop] at h
    cases hx : σ[var]? with
    | none => simp [hx] at h
    | some x =>
      simp only [hx] at h
      by_cases h0 : x.val ≠ 0
      · simp only [if_pos h0] at h
        cases hb1 : body σ with
        | ok τ =>
          simp only [hb1] at h
          exact ih τ status msg σ1 h
        | exit status1 msg1 τ =>
          simp only [hb1] at h
          rw [h] at hb1
          exact hb σ status msg σ1 hb1
        | undefined => simp [hb1] at h
        | timeout => simp [hb1] at h
      · simp [if_neg h0] at h

mutual
theorem execute_stmt_exit_status : ∀ (stmt : stmt_t) (fuel : Nat) (σ : Store) status msg σ1,
    execute_stmt fuel stmt σ = Outcome.exit status msg σ1 → status = 2
  | stmt_t.Clear _ var, fuel, σ, status, msg, σ1, h => by
    simp only [execute_stmt] at h
    cases hx : σ[var]? with
    | none => simp [hx] at h
    | some x => simp [hx] at h
  | stmt_t.Incr l var, fuel, σ, status, msg, σ1, h => by
    simp only [execute_stmt] at h
    cases hx : σ[var]? with
    | none => simp [hx] at h
    | some x =>
      simp only [hx] at h
      cases hc : check_var_init l x with
      | some m =>
        simp only [hc, Outcome.exit.injEq] at h
        exact h.1.symm
      | none =>
        simp only [hc] at h
        by_cases hm : x.val = UINTMAX_MAX
        · simp only [if_pos hm, Outcome.exit.injEq] at h
          exact h.1.symm
        · simp [if_neg hm] at h
  | stmt_t.Decr l var, fuel, σ, status, msg, σ1, h => by
    simp only [execute_stmt] at h
    cases hx : σ[var]? with
    | none => simp [hx] at h
    | some x =>
      simp only [hx] at h
      cases hc : check_var_init l x with
      | some m =>
        simp only [hc, Outcome.exit.injEq] at h
        exact h.1.symm
      | none =>
        simp only [hc] at h
        by_cases hm : x.val ≠ 0
        · simp [if_pos hm] at h
        · simp [if_neg hm] at h
  | stmt_t.Copy l var dest, fuel, σ, status, msg, σ1, h => by
    simp only [execute_stmt] at h
    cases hx : σ[var]? with
    | none => simp [hx] at h
    | some x =>
      simp only [hx] at h
      cases hc : check_var_init l x with
      | some m =>
        simp only [hc, Outcome.exit.injEq] at h
        exact h.1.symm
      | none =>
        simp only [hc] at h
        cases hd : σ[dest]? with
        | none => simp [hd] at h
        | some d => simp [hd] at h
  | stmt_t.AddClear l var dest, fuel, σ, status, msg, σ1, h => by
    simp only [execute_stmt] at h
    cases hx : σ[var]? with
    | none => simp [hx] at h
    | some x =>
      simp only [hx] at h
      cases hc : check_var_init l x with
      | some m =>
        simp only [hc, Outcome.exit.injEq] at h
        exact h.1.symm
      | none =>
        simp only [hc] at h
        cases hd : σ[dest]? with
        | none => simp [hd] at h
        | some d =>
          simp only [hd] at h
          cases hc2 : check_var_init l d with
          | some m =>
            simp only [hc2, Outcome.exit.injEq] at h
            exact h.1.symm
          | none =>
            simp only [hc2] at h
            cases hx1 : (σ.set dest { d with val := (d.val + x.val) % 2 ^ 64 })[var]? with
            | none =>
              rw [hx1] at h
              simp at h
            | some x1 =>
              rw [hx1] at h
              simp at h
  | stmt_t.While l var stmt_list, fuel, σ, status, msg, σ1, h => by
    have ihl := execute_stmt_list_exit_status stmt_list fuel
    simp only [execute_stmt] at h
    cases hx : σ[var]? with
    | none => simp [hx] at h
    | some x =>
      simp only [hx] at h
      cases hc : check_var_init l x with
      | some m =>
        simp only [hc, Outcome.exit.injEq] at h
        exact h.1.symm
      | none =>
        simp only [hc] at h
        exact while_loop_exit_status _ var ihl fuel σ status msg σ1 h
theorem execute_stmt_list_exit_status : ∀ (list : List stmt_t) (fuel : Nat) (σ : Store)
    status msg σ1, execute_stmt_list fuel list σ = Outcome.exit status msg σ1 → status = 2
  | [], fuel, σ, status, msg, σ1, h => by
    simp [execute_stmt_list] at h
  | stmt :: next, fuel, σ, status, msg, σ1, h => by
    have ihs := execute_stmt_exit_status stmt fuel σ
    have ihn := execute_stmt_list_exit_status next fuel
    simp only [execute_stmt_list] at h
    cases hs : execute_stmt fuel stmt σ with
    | ok τ =>
      simp only [hs] at h
      exact ihn τ status msg σ1 h
    | exit status1 msg1 τ =>
      simp only [hs] at h
      rw [h] at hs
      exact ihs status msg σ1 hs
    | undefined => simp [hs] at h
    | timeout => simp [hs] at h
end

/-- C17 as stated fails on the pre-seed `X=-3`: it is rejected with exit status
2, which is the exit status of the uninitialized-variable error and of the
overflow error as well. -/
theorem negative_preseed_status_counterexample :
    define_var (fun s => if s = "-3" then some (-3, 2) else none) true "X=-3" [] =
      Defined.fatal 2 Fatal.negative [] ∧
    execute_stmt 0 (stmt_t.Incr 1 0) [⟨"X", false, 0⟩] =
      Outcome.exit 2 (Message.uninitialized 1 "X") [⟨"X", false, 0⟩] ∧
    execute_stmt 0 (stmt_t.Incr 1 0) [⟨"X", true, UINTMAX_MAX⟩] =
      Outcome.exit 2 Message.overflow [⟨"X", true, UINTMAX_MAX⟩] := by
  refine ⟨by decide, by decide, by decide⟩

/-- C17 (amended): a pre-seed `name=text` whose text `sscanf` reads whole as a
negative integer is rejected by `define_var` before `find_var` is called: the
store at the exit is the store before the call, so that no variable has been
created (and `define_var` executes no statement).  The exit status is 2: it is
not zero, and it is the exit status of every exit of the executor, the
uninitialized-variable error and the overflow error among them. -/
theorem define_var_negative (sscanf : String → Option (Int × Nat)) (init_to_zero : Bool)
    (s : String) (σ : Store) (name p : List Char) (c : Char) (val : Int) (cc : Nat)
    (hspan : s.data.span (fun c => c ≠ '=') = (name, c :: p))
    (hscan : sscanf (String.mk p) = some (val, cc)) (hcc : cc = (String.mk p).length)
    (hneg : val < 0) :
    define_var sscanf init_to_zero s σ = Defined.fatal 2 Fatal.negative σ ∧
    (2 : Nat) ≠ 0 ∧
    (∀ fuel stmt τ status msg τ1,
      execute_stmt fuel stmt τ = Outcome.exit status msg τ1 → status = 2) ∧
    (∀ fuel list τ status msg τ1,
      execute_stmt_list fuel list τ = Outcome.exit status msg τ1 → status = 2) := by
  refine ⟨?_, by decide, fun fuel stmt τ => execute_stmt_exit_status stmt fuel τ,
    fun fuel list τ => execute_stmt_list_exit_status list fuel τ⟩
  unfold define_var
  rw [hspan]
  simp only [a_to_intmax, hscan, hcc, ne_eq, not_true_eq_false, if_false, hneg, if_true]

/-- C17 (amended) at the pre-seed `X=-3`, after `Y` has been pre-seeded: no `X`
is created. -/
theorem define_var_negative_witness :
    define_var (fun s => if s = "-3" then some (-3, 2) else none) false "X=-3"
        [⟨"Y", true, 5⟩] =
      Defined.fatal 2 Fatal.negative [⟨"Y", true, 5⟩] :=
  (define_var_negative (fun s => if s = "-3" then some (-3, 2) else none) false "X=-3"
    [⟨"Y", true, 5⟩] ['X'] ['-', '3'] '=' (-3) 2 (by decide) (by decide) (by decide)
    (by decide)).1

end Barebones
